import Mathlib

set_option linter.unusedVariables false

namespace EffectCleanup

/-- Body of a user-supplied cleanup callback, as an action language.  The
TypeScript source registers arbitrary closures; the constructors below cover
the closures the library itself registers plus the observable mocks used in
its test properties:
* `nop` is a cleanup with no observable effect (for example the debug-label
  logger registered by the `EffectController` constructor);
* `emit l` is a counting/ordering mock: appends `l` to the world trace;
* `detach p ch` is the closure `createChildController` registers on a new
  child: it splices `ch` out of the `childControllers` array of `p`
  (`indexOf` followed by `splice`, src/src/effect.ts lines 65-70);
* `abortCell i` is the closure `createAbortSwitchWrapper` registers on its
  context (src/src/effect.ts lines 172-177): if the mutable `currCtrl`
  variable, modelled as world cell `i`, holds a controller then abort it and
  null the cell;
* `createChild c` is a user cleanup whose body calls `createController` on
  controller `c`;
* `registerOn c l` is a user cleanup whose body calls `onAbort` on controller
  `c`, registering a fresh `emit l` cleanup;
* `probeAborted c` is a user cleanup whose body reads `aborted()` of
  controller `c` and records the answer on the trace (1 for true, 0 for
  false). -/
inductive UserAct where
  | nop
  | emit (label : Nat)
  | detach (parent : Nat) (child : Nat)
  | abortCell (cell : Nat)
  | createChild (c : Nat)
  | registerOn (c : Nat) (label : Nat)
  | probeAborted (c : Nat)
  deriving DecidableEq, Repr

/-- One entry of a controller's `cleanupCallbacks` array: the `wrappedCleanup`
closure pushed by `onAbort` (src/src/effect.ts lines 101-116).  The field `id`
models the reference identity of that closure: each call of `onAbort`
allocates a distinct closure object, and `removeCleanup` finds it again with
`indexOf`.  The field `act` is the body of the user cleanup it wraps. -/
structure Cleanup where
  id : Nat
  act : UserAct
  deriving DecidableEq, Repr

/-- State of one `EffectController` (src/src/effect.ts lines 44-47). -/
structure Ctrl where
  cleanupCallbacks : List Cleanup := []
  childControllers : List Nat := []
  aborted : Bool := false
  deriving DecidableEq, Repr

/-- The value read for an out-of-range controller id; never reached by worlds
built through the API. -/
def defaultCtrl : Ctrl := {}

/-- The mutable state the embedded program fragments touch: the controllers
(a controller id is its index in `ctrls`, standing for the object reference),
the `currCtrl` cells of switch wrappers, a counter allocating closure
identities, and the observation trace appended to by `emit` and
`probeAborted` cleanups. -/
structure World where
  ctrls : List Ctrl := []
  cells : List (Option Nat) := []
  nextId : Nat := 0
  trace : List Nat := []
  deriving DecidableEq, Repr

/-- The empty world: no controllers yet. -/
def World.empty : World := {}

/-- Read controller `c`. -/
def World.ctrl (w : World) (c : Nat) : Ctrl :=
  w.ctrls.getD c defaultCtrl

/-- Replace controller `c` in place. -/
def World.setCtrl (w : World) (c : Nat) (ct : Ctrl) : World :=
  { w with ctrls := w.ctrls.set c ct }

/-- Update controller `c` through `f`. -/
def World.modifyCtrl (w : World) (c : Nat) (f : Ctrl → Ctrl) : World :=
  w.setCtrl c (f (w.ctrl c))

/-- Read `currCtrl` cell `i`. -/
def World.cell (w : World) (i : Nat) : Option Nat :=
  (w.cells.getD i none)

/-- Write `currCtrl` cell `i`. -/
def World.setCell (w : World) (i : Nat) (v : Option Nat) : World :=
  { w with cells := w.cells.set i v }

/-- Append an observation to the trace. -/
def World.push (w : World) (l : Nat) : World :=
  { w with trace := w.trace ++ [l] }

/-- Remove the first list entry whose `id` matches; models
`indexOf` + `splice(idx, 1)` searching for the `wrappedCleanup` closure
(src/src/effect.ts lines 107-112).  When no entry matches (`idx < 0`) the
list is unchanged. -/
def eraseFirstId (i : Nat) : List Cleanup → List Cleanup
  | [] => []
  | cl :: rest => if cl.id = i then rest else cl :: eraseFirstId i rest

/-- Remove the first occurrence of a controller id; models
`indexOf` + `splice(idx, 1)` on a `childControllers` array
(src/src/effect.ts lines 66-69). -/
def eraseFirstNat (x : Nat) : List Nat → List Nat
  | [] => []
  | y :: rest => if y = x then rest else y :: eraseFirstNat x rest

/-- Models `EffectController.onAbort` (src/src/effect.ts lines 101-116): push
a fresh `wrappedCleanup` wrapping the user act `a` onto the callback array of
controller `c`, and return the allocated closure identity, which stands for
the `removeCleanup` handle the method returns. -/
def onAbort (c : Nat) (a : UserAct) (w : World) : World × Nat :=
  let i := w.nextId
  let w := { w with nextId := w.nextId + 1 }
  (w.modifyCtrl c fun ct =>
    { ct with cleanupCallbacks := ct.cleanupCallbacks ++ [⟨i, a⟩] }, i)

/-- Models calling the `removeCleanup` closure returned by `onAbort`
(src/src/effect.ts lines 107-112): splice the wrapped cleanup with identity
`i` out of the callback array of `c`, a no-op when it is no longer there. -/
def removeCleanup (c : Nat) (i : Nat) (w : World) : World :=
  w.modifyCtrl c fun ct =>
    { ct with cleanupCallbacks := eraseFirstId i ct.cleanupCallbacks }

/-- Models `new EffectController(options)` (src/src/effect.ts lines 49-59):
append a fresh controller; its constructor immediately registers the
debug-label cleanup through `onAbort`, modelled as a `nop` act.  Returns the
id of the new controller. -/
def newController (w : World) : World × Nat :=
  let c := w.ctrls.length
  let w := { w with ctrls := w.ctrls ++ [defaultCtrl] }
  ((onAbort c .nop w).1, c)

/-- Models `EffectController.createChildController` (src/src/effect.ts lines
61-73): construct a child, push it onto `childControllers`, and register the
self-detach cleanup on the child. -/
def createChildController (parent : Nat) (w : World) : World × Nat :=
  let (w, c) := newController w
  let w := w.modifyCtrl parent fun ct =>
    { ct with childControllers := ct.childControllers ++ [c] }
  ((onAbort c (.detach parent c) w).1, c)

/-- Errors the embedded fragments can raise. -/
inductive Err where
  /-- Models `throw new Error('aborted controller can't create child
  controller')` (src/src/effect.ts line 120). -/
  | alreadyAborted
  /-- Models `throw new Error('cleanup callbacks not empty')`
  (src/src/effect.ts line 91). -/
  | cleanupNotEmpty
  /-- Models the TypeError JavaScript raises when an index run over a
  concurrently shrunk array yields `undefined` and it is then called. -/
  | typeError
  /-- Fuel exhaustion of the interpreter, standing for non-termination of
  the source (mutually recursive `abort` calls that never return). -/
  | outOfFuel
  deriving DecidableEq, Repr

/-- Models `EffectController.createController` (src/src/effect.ts lines
118-124): fail fast on an aborted controller, otherwise create a child. -/
def createController (c : Nat) (w : World) : Except Err (World × Nat) :=
  if (w.ctrl c).aborted then .error .alreadyAborted
  else .ok (createChildController c w)

mutual

/-- Models `EffectController.abort` (src/src/effect.ts lines 75-95): return
at once when already aborted; otherwise abort the children from the last to
the first, clear the child array, run the cleanup callbacks from the last to
the first, raise when the callback array is not empty afterwards, and only
then set the aborted flag. -/
def abortCtrl : Nat → Nat → World → Except Err World
  | 0, _, _ => .error .outOfFuel
  | fuel + 1, c, w =>
    if (w.ctrl c).aborted then .ok w
    else
      match childLoop fuel c (w.ctrl c).childControllers.length w with
      | .error e => .error e
      | .ok w =>
        let w := w.modifyCtrl c fun ct => { ct with childControllers := [] }
        match cleanupLoop fuel c (w.ctrl c).cleanupCallbacks.length w with
        | .error e => .error e
        | .ok w =>
          if (w.ctrl c).cleanupCallbacks.length > 0 then
            .error .cleanupNotEmpty
          else
            .ok (w.modifyCtrl c fun ct => { ct with aborted := true })
termination_by structural fuel => fuel

/-- Models the loop `for (let i = children.length - 1; i >= 0; i--)
children[i].abort()` (src/src/effect.ts lines 80-82): the argument `i` is the
count of indices still to visit, and each iteration reads the current,
possibly already spliced, array. -/
def childLoop : Nat → Nat → Nat → World → Except Err World
  | 0, _, _, _ => .error .outOfFuel
  | _ + 1, _, 0, w => .ok w
  | fuel + 1, c, i + 1, w =>
    match (w.ctrl c).childControllers[i]? with
    | none => .error .typeError
    | some d =>
      match abortCtrl fuel d w with
      | .error e => .error e
      | .ok w => childLoop fuel c i w
termination_by structural fuel => fuel

/-- Models the loop `for (let i = cleanupCallbacks.length - 1; i >= 0; i--)
{ const cb = cleanupCallbacks[i]; cb(); }` (src/src/effect.ts lines 85-88):
each iteration reads the current array, which the wrapped cleanups splice as
they run. -/
def cleanupLoop : Nat → Nat → Nat → World → Except Err World
  | 0, _, _, _ => .error .outOfFuel
  | _ + 1, _, 0, w => .ok w
  | fuel + 1, c, i + 1, w =>
    match (w.ctrl c).cleanupCallbacks[i]? with
    | none => .error .typeError
    | some cl =>
      match runWrapped fuel c cl w with
      | .error e => .error e
      | .ok w => cleanupLoop fuel c i w
termination_by structural fuel => fuel

/-- Models one `wrappedCleanup` call (src/src/effect.ts lines 102-105): run
the user cleanup, then `removeCleanup()` splices the wrapper itself out of
the callback array of `c`. -/
def runWrapped : Nat → Nat → Cleanup → World → Except Err World
  | 0, _, _, _ => .error .outOfFuel
  | fuel + 1, c, cl, w =>
    match runAct fuel cl.act w with
    | .error e => .error e
    | .ok w => .ok (removeCleanup c cl.id w)
termination_by structural fuel => fuel

/-- Run the body of a user cleanup; each branch matches the closure it
models, see `UserAct`. -/
def runAct : Nat → UserAct → World → Except Err World
  | 0, _, _ => .error .outOfFuel
  | _ + 1, .nop, w => .ok w
  | _ + 1, .emit l, w => .ok (w.push l)
  | _ + 1, .detach p ch, w =>
    .ok (w.modifyCtrl p fun ct =>
      { ct with childControllers := eraseFirstNat ch ct.childControllers })
  | fuel + 1, .abortCell i, w =>
    match w.cell i with
    | none => .ok w
    | some d =>
      match abortCtrl fuel d w with
      | .error e => .error e
      | .ok w => .ok (w.setCell i none)
  | _ + 1, .createChild c, w =>
    match createController c w with
    | .error e => .error e
    | .ok (w, _) => .ok w
  | _ + 1, .registerOn c l, w => .ok (onAbort c (.emit l) w).1
  | _ + 1, .probeAborted c, w =>
    .ok (w.push (if (w.ctrl c).aborted then 1 else 0))
termination_by structural fuel => fuel

end

/-- Runs a sequence of `abort()` calls, each with its own fuel, on the given
controllers; an exception anywhere propagates out. -/
def abortSeq : List (Nat × Nat) → World → Except Err World
  | [], w => .ok w
  | (fuel, c) :: rest, w =>
    match abortCtrl fuel c w with
    | .error e => .error e
    | .ok w => abortSeq rest w

/-- Models `createAbortSwitchWrapper` construction (src/src/effect.ts lines
170-177): allocate the `currCtrl` cell (initially null) and register the
cleanup on the surrounding context that aborts the live child.  Returns the
cell index. -/
def createSwitchWrapper (s : Nat) (w : World) : World × Nat :=
  let i := w.cells.length
  let w := { w with cells := w.cells ++ [none] }
  ((onAbort s (.abortCell i) w).1, i)

/-- Models one invocation of the function a switch wrapper returns
(src/src/effect.ts lines 180-188): abort the previous child held in
`currCtrl` if any, then replace it with a fresh child obtained through
`createController` on the wrapper's context.  Returns the fresh child, which
the wrapper passes to the callback. -/
def switchInvoke (fuel : Nat) (s : Nat) (cell : Nat) (w : World) :
    Except Err (World × Nat) :=
  match w.cell cell with
  | some d =>
    match abortCtrl fuel d w with
    | .error e => .error e
    | .ok w =>
      match createController s w with
      | .error e => .error e
      | .ok (w, c) => .ok (w.setCell cell (some c), c)
  | none =>
    match createController s w with
    | .error e => .error e
    | .ok (w, c) => .ok (w.setCell cell (some c), c)

/-- Models the full wrapped call `cb(currCtrl, ...args)` (src/src/effect.ts
line 187): after `switchInvoke`, the callback receives the fresh child
prepended to its arguments and its result is returned unchanged. -/
def switchCall {α : Type} (fuel : Nat) (s : Nat) (cell : Nat)
    (cb : Nat → World → α) (w : World) : Except Err α :=
  match switchInvoke fuel s cell w with
  | .error e => .error e
  | .ok (w, c) => .ok (cb c w)

/-- Outcome of the synchronous phase of `EffectTransaction.actAsync`
(src/src/effect.ts lines 149-163), up to and including the call of
`callback()` but before the produced promise settles. -/
inductive AsyncStart where
  /-- The bound context was already aborted: resolve at once with
  `{ aborted: true }` and never invoke `callback`. -/
  | resolvedAborted
  /-- `callback()` was invoked and its promise is pending.  Nothing was
  registered on the context: the `onAbort` call sits inside the `.then`
  continuation. -/
  | pending
  deriving DecidableEq, Repr

/-- Models the synchronous phase of `EffectTransaction.actAsync`
(src/src/effect.ts lines 149-163): check `aborted()`, short-circuit when set,
otherwise invoke `callback()` and return with the promise pending.  The world
is returned so that theorems can state which registrations this phase
performs on the context. -/
def actAsyncStart (c : Nat) (w : World) : World × AsyncStart :=
  if (w.ctrl c).aborted then (w, .resolvedAborted) else (w, .pending)

/-- Models the `.then` continuation of `EffectTransaction.actAsync`
(src/src/effect.ts lines 154-162), run when the produced promise settles with
a value whose transaction cleanup is the mock `emit l`: if the context has
aborted in the meantime, `cleanup?.(value)` is invoked directly (the trace
gets `l`) and the result is tagged aborted with an inert `removeCleanup`;
otherwise the cleanup is registered through `onAbort` now and the result
carries the live `removeCleanup` handle. -/
def actAsyncSettle (c : Nat) (l : Nat) (w : World) :
    World × Bool × Option Nat :=
  if (w.ctrl c).aborted then (w.push l, true, none)
  else
    let (w, i) := onAbort c (.emit l) w
    (w, false, some i)

/-- Models the synchronous phase of the `EffectTransaction.actAsync` variant
in packages/effect-controller/src/chore/index.ts (lines 127-142): check
`aborted()`, short-circuit when set, otherwise invoke `callback()` and
register the cleanup through `onAbort` in the same tick, before the promise
settles.  Returns the `removeCleanup` handle when one was registered. -/
def actAsyncChoreStart (c : Nat) (l : Nat) (w : World) :
    World × Option Nat :=
  if (w.ctrl c).aborted then (w, none)
  else
    let (w, i) := onAbort c (.emit l) w
    (w, some i)

/-- Models the `.then` continuation of the packages/effect-controller
`actAsync` (lines 135-141): nothing is registered or run here, the result is
merely tagged with the aborted state read at settle time. -/
def actAsyncChoreSettle (c : Nat) (w : World) : World × Bool :=
  (w, (w.ctrl c).aborted)

/-- Models `race` (src/src/abort.ts lines 102-104 and src/src/effect-util.ts
lines 161-163): `return { value: await promise, aborted }`.  The function is
the continuation run when the awaited promise settles with `v`; it touches
nothing and pairs `v` with the `aborted` flag read at that moment. -/
def race {α : Type} (c : Nat) (v : α) (w : World) : World × α × Bool :=
  (w, v, (w.ctrl c).aborted)

/-- Models `createAbortedController` of src/src/abort.ts (lines 40-46): the
factory of that iteration appends a fresh controller but, unlike the
`EffectController` constructor, registers nothing (it only logs). -/
def newControllerAbortTs (w : World) : World × Nat :=
  (({ w with ctrls := w.ctrls ++ [defaultCtrl] }), w.ctrls.length)

/-- Models `onAbort` of src/src/abort.ts (lines 85-100): the registration is
identical to src/src/effect.ts, but the function RETURNS `wrappedCleanup`
itself (line 99), not `removeCleanup`.  The returned pair carries the pushed
wrapper so that calling the returned value can be modelled. -/
def onAbortAbortTs (c : Nat) (a : UserAct) (w : World) : World × Cleanup :=
  let i := w.nextId
  let w := { w with nextId := w.nextId + 1 }
  (w.modifyCtrl c fun ct =>
    { ct with cleanupCallbacks := ct.cleanupCallbacks ++ [⟨i, a⟩] }, ⟨i, a⟩)

/-- Models calling the value `onAbort` of src/src/abort.ts returns: that
value is `wrappedCleanup`, so the call runs the user cleanup and then splices
the wrapper out of the callback array. -/
def callAbortTsHandle (fuel : Nat) (c : Nat) (cl : Cleanup) (w : World) :
    Except Err World :=
  runWrapped fuel c cl w

/-- Count the `emit l` cleanups in a callback list. -/
def countEmit (l : Nat) (cls : List Cleanup) : Nat :=
  cls.countP fun cl => decide (cl.act = .emit l)

/-- Count the `emit l` cleanups registered anywhere in the world. -/
def World.listCount (w : World) (l : Nat) : Nat :=
  (w.ctrls.map fun ct => countEmit l ct.cleanupCallbacks).sum

/-- Count the occurrences of `l` on the trace. -/
def World.traceCount (w : World) (l : Nat) : Nat :=
  w.trace.count l

/-- Executions so far plus pending registrations of the mock labelled `l`. -/
def World.totalCount (w : World) (l : Nat) : Nat :=
  w.traceCount l + w.listCount l

/-- Decidable equality of exception results, so that concrete runs of the
interpreter can be checked by `decide`. -/
instance {ε α : Type} [DecidableEq ε] [DecidableEq α] :
    DecidableEq (Except ε α) := fun a b =>
  match a, b with
  | .ok x, .ok y =>
    if h : x = y then .isTrue (by rw [h])
    else .isFalse (by intro hc; cases hc; exact h rfl)
  | .error x, .error y =>
    if h : x = y then .isTrue (by rw [h])
    else .isFalse (by intro hc; cases hc; exact h rfl)
  | .ok _, .error _ => .isFalse (by intro hc; cases hc)
  | .error _, .ok _ => .isFalse (by intro hc; cases hc)

/-- Closure identities of the wrapped cleanups registered on a controller. -/
def idsOf (ct : Ctrl) : List Nat :=
  ct.cleanupCallbacks.map Cleanup.id

/-- Well-formedness of closure identities: the identities registered on one
controller are distinct, no identity is registered on two controllers, and
all identities were allocated below the counter.  Worlds built through the
API satisfy this because `onAbort` allocates from the counter. -/
def World.IdsOk (w : World) : Prop :=
  (∀ j, (idsOf (w.ctrl j)).Nodup) ∧
  (∀ j k, j ≠ k → ∀ i, i ∈ idsOf (w.ctrl j) → i ∉ idsOf (w.ctrl k)) ∧
  (∀ j i, i ∈ idsOf (w.ctrl j) → i < w.nextId)

/-- Decidable sufficient condition for `World.IdsOk` on a concrete world. -/
@[reducible] def World.IdsOkDec (w : World) : Prop :=
  ((w.ctrls.map idsOf).flatten.Nodup) ∧
  ∀ i ∈ (w.ctrls.map idsOf).flatten, i < w.nextId

/-- Cleanup bodies whose only interactions with the controllers are running
other aborts, detaching children, creating fresh children, and appending
observations: they never call `onAbort` on a controller that already exists,
and never probe the aborted flag. -/
def TameAct : UserAct → Bool
  | .registerOn _ _ => false
  | .probeAborted _ => false
  | _ => true

/-- A world whose registered cleanups are all tame, see `TameAct`. -/
def World.Tame (w : World) : Prop :=
  ∀ j, ∀ cl ∈ (w.ctrl j).cleanupCallbacks, TameAct cl.act = true

/-- Decidable sufficient condition for `World.Tame` on a concrete world. -/
@[reducible] def World.TameDec (w : World) : Prop :=
  ∀ ct ∈ w.ctrls, ∀ cl ∈ ct.cleanupCallbacks, TameAct cl.act = true

/-- No registered cleanup calls `onAbort` back on the very controller it is
registered on (the literal precondition of the specification's empty-list
assertion). -/
def World.NoSelfReg (w : World) : Prop :=
  ∀ j, ∀ cl ∈ (w.ctrl j).cleanupCallbacks, ∀ l, cl.act ≠ .registerOn j l

/-- Does this cleanup body call `onAbort` back on controller `j`? -/
def selfRegOn (j : Nat) : UserAct → Bool
  | .registerOn c _ => c == j
  | _ => false

/-- Decidable sufficient condition for `World.NoSelfReg`. -/
@[reducible] def World.NoSelfRegDec (w : World) : Prop :=
  ∀ j < w.ctrls.length,
    ∀ cl ∈ (w.ctrls.getD j defaultCtrl).cleanupCallbacks,
      selfRegOn j cl.act = false

/-- How one run of an embedded fragment may change the world, apart from the
conservation of emit cleanups (see `Ev`): controllers are never deleted, the
identity counter never decreases, the aborted flag is monotone, the callback
array of a controller that was already aborted is untouched, a controller
that becomes aborted has run its callbacks down to the empty array, the
callback array of a pre-existing controller that has not aborted is
untouched, registered emit mocks never become more numerous, and identities
appearing afresh come from the counter. -/
structure Ev0 (w w' : World) : Prop where
  lenLe : w.ctrls.length ≤ w'.ctrls.length
  nextIdLe : w.nextId ≤ w'.nextId
  abortedMono : ∀ j, (w.ctrl j).aborted = true → (w'.ctrl j).aborted = true
  frozen : ∀ j, (w.ctrl j).aborted = true →
    (w'.ctrl j).cleanupCallbacks = (w.ctrl j).cleanupCallbacks
  newAborted : ∀ j, (w.ctrl j).aborted = false → (w'.ctrl j).aborted = true →
    (w'.ctrl j).cleanupCallbacks = []
  stable : ∀ j, j < w.ctrls.length → (w'.ctrl j).aborted = false →
    (w'.ctrl j).cleanupCallbacks = (w.ctrl j).cleanupCallbacks
  emitShrink : ∀ j l, countEmit l (w'.ctrl j).cleanupCallbacks ≤
    countEmit l (w.ctrl j).cleanupCallbacks
  idsGrow : ∀ j i, i ∈ idsOf (w'.ctrl j) → i ∈ idsOf (w.ctrl j) ∨ w.nextId ≤ i
  idsOk : w.IdsOk → w'.IdsOk
  tame : w.Tame → w'.Tame

/-- `Ev0` together with exact conservation of every emit mock: every label is
either still registered or has moved to the trace, never both or neither. -/
structure Ev (w w' : World) extends Ev0 w w' : Prop where
  conserve : ∀ l, w'.totalCount l = w.totalCount l

/-- Like `Ev`, but for the fragments inside the cleanup sweep of controller
`c` (the callback loop and one wrapped cleanup call): these legitimately
splice entries out of the callback array of `c` while `c` is not yet aborted,
so the untouched-array guarantee only covers the other controllers. -/
structure EvC (c : Nat) (w w' : World) : Prop where
  lenLe : w.ctrls.length ≤ w'.ctrls.length
  nextIdLe : w.nextId ≤ w'.nextId
  abortedMono : ∀ j, (w.ctrl j).aborted = true → (w'.ctrl j).aborted = true
  frozen : ∀ j, (w.ctrl j).aborted = true →
    (w'.ctrl j).cleanupCallbacks = (w.ctrl j).cleanupCallbacks
  newAborted : ∀ j, (w.ctrl j).aborted = false → (w'.ctrl j).aborted = true →
    (w'.ctrl j).cleanupCallbacks = []
  stableNe : ∀ j, j ≠ c → j < w.ctrls.length → (w'.ctrl j).aborted = false →
    (w'.ctrl j).cleanupCallbacks = (w.ctrl j).cleanupCallbacks
  emitShrink : ∀ j l, countEmit l (w'.ctrl j).cleanupCallbacks ≤
    countEmit l (w.ctrl j).cleanupCallbacks
  idsGrow : ∀ j i, i ∈ idsOf (w'.ctrl j) → i ∈ idsOf (w.ctrl j) ∨ w.nextId ≤ i
  idsOk : w.IdsOk → w'.IdsOk
  tame : w.Tame → w'.Tame
  conserve : ∀ l, w'.totalCount l = w.totalCount l

/-- The label a cleanup writes on the trace when it runs, if any. -/
def actLabel : UserAct → Option Nat
  | .emit l => some l
  | _ => none

/-- The hypotheses threaded through the induction on fuel: well-formed
closure identities and tame cleanups. -/
def HypW (w : World) : Prop := w.IdsOk ∧ w.Tame

/-- Induction clause for `abortCtrl`: it never raises the empty-list
assertion, and a successful run is a conservative evolution that leaves the
controller aborted. -/
def PAbort (fuel : Nat) : Prop :=
  ∀ c w, HypW w →
    abortCtrl fuel c w ≠ .error .cleanupNotEmpty ∧
    ∀ w', abortCtrl fuel c w = .ok w' →
      Ev w w' ∧ (c < w.ctrls.length → (w'.ctrl c).aborted = true)

/-- Induction clause for the child loop. -/
def PChild (fuel : Nat) : Prop :=
  ∀ c i w, HypW w →
    childLoop fuel c i w ≠ .error .cleanupNotEmpty ∧
    ∀ w', childLoop fuel c i w = .ok w' → Ev w w'

/-- Induction clause for the cleanup loop: additionally, starting at an index
at or above the array length runs the array down to empty. -/
def PClean (fuel : Nat) : Prop :=
  ∀ c i w, HypW w → (w.ctrl c).aborted = false →
    cleanupLoop fuel c i w ≠ .error .cleanupNotEmpty ∧
    ∀ w', cleanupLoop fuel c i w = .ok w' →
      EvC c w w' ∧ ((w.ctrl c).cleanupCallbacks.length ≤ i →
        (w'.ctrl c).cleanupCallbacks.length = 0)

/-- Induction clause for one wrapped cleanup call: the callback array of its
controller strictly shrinks. -/
def PWrap (fuel : Nat) : Prop :=
  ∀ c cl w, HypW w → (w.ctrl c).aborted = false →
    cl ∈ (w.ctrl c).cleanupCallbacks →
    runWrapped fuel c cl w ≠ .error .cleanupNotEmpty ∧
    ∀ w', runWrapped fuel c cl w = .ok w' →
      EvC c w w' ∧
        (w'.ctrl c).cleanupCallbacks.length < (w.ctrl c).cleanupCallbacks.length

/-- Induction clause for one user act: a successful run conserves every emit
mock except that running the `emit` act itself moves one occurrence of its
label onto the trace. -/
def PAct (fuel : Nat) : Prop :=
  ∀ a w, HypW w → TameAct a = true →
    runAct fuel a w ≠ .error .cleanupNotEmpty ∧
    ∀ w', runAct fuel a w = .ok w' →
      Ev0 w w' ∧
        ∀ l, w'.totalCount l = w.totalCount l + (if a = .emit l then 1 else 0)

section Scenarios

/-- A root scope with three counting cleanups registered in the order
`a`, `b`, `c` (the LIFO test of the spec, §8). -/
def lifoWorld (a b c : Nat) : World :=
  let w := (newController World.empty).1
  let w := (onAbort 0 (.emit a) w).1
  let w := (onAbort 0 (.emit b) w).1
  (onAbort 0 (.emit c) w).1

/-- A three-level tree: root `0` with cleanup `p`, children `1` (cleanup
`c1`) and `2` (cleanup `c2`) created in that order, and grandchild `3` of
`2` with cleanup `g`. -/
def treeWorld (p c1 c2 g : Nat) : World :=
  let w := (newController World.empty).1
  let w := (onAbort 0 (.emit p) w).1
  let w := (createChildController 0 w).1
  let w := (onAbort 1 (.emit c1) w).1
  let w := (createChildController 0 w).1
  let w := (onAbort 2 (.emit c2) w).1
  let w := (createChildController 2 w).1
  (onAbort 3 (.emit g) w).1

/-- A root scope whose own cleanups probe the aborted flag and create a child
mid-sweep, with a child whose cleanup probes the root's flag during the
child phase. -/
def probeWorld : World :=
  let w := (newController World.empty).1
  let w := (onAbort 0 (.probeAborted 0) w).1
  let w := (onAbort 0 (.createChild 0) w).1
  let w := (createChildController 0 w).1
  (onAbort 1 (.probeAborted 0) w).1

/-- Two unrelated root controllers: aborting `0` runs a cleanup that aborts
`1` (cell `0` holds the captured reference), and the cleanup of `1` calls
`onAbort` on `0` — a registration onto a scope other than its own. -/
def crossRegWorld (l : Nat) : World :=
  { ctrls := [{ cleanupCallbacks := [⟨0, .abortCell 0⟩] },
              { cleanupCallbacks := [⟨1, .registerOn 0 l⟩] }],
    cells := [some 1], nextId := 2, trace := [] }

/-- A root controller whose only cleanup registers a new cleanup back onto
the very scope being swept. -/
def selfRegWorld (l : Nat) : World :=
  { ctrls := [{ cleanupCallbacks := [⟨0, .registerOn 0 l⟩] }],
    cells := [], nextId := 1, trace := [] }

/-- A single live root controller, as `createEffectController()` returns
it. -/
def rootWorld : World := (newController World.empty).1

/-- A single controller that has been aborted, its callback array run down to
empty, as `abort()` leaves a fresh controller. -/
def abortedWorld : World :=
  { ctrls := [{ cleanupCallbacks := [], childControllers := [], aborted := true }],
    cells := [], nextId := 2, trace := [] }

/-- The switch-wrapper scenario of the spec (§8): context `0`, a wrapper over
it, three invocations of the wrapped function — the callback of each
invocation records the child id it receives on the trace and registers a
counting cleanup (`101`, `102`, `103`) on that child — and finally `abort()`
of the context itself. -/
def switchScenario : Except Err World :=
  let p := createSwitchWrapper 0 rootWorld
  match switchInvoke 4 0 p.2 p.1 with
  | .error e => .error e
  | .ok (w, c1) =>
    let w := (onAbort c1 (.emit 101) (w.push c1)).1
    match switchInvoke 6 0 p.2 w with
    | .error e => .error e
    | .ok (w, c2) =>
      let w := (onAbort c2 (.emit 102) (w.push c2)).1
      match switchInvoke 6 0 p.2 w with
      | .error e => .error e
      | .ok (w, c3) =>
        let w := (onAbort c3 (.emit 103) (w.push c3)).1
        abortCtrl 8 0 w

/-- The world two successive `abort()` calls leave on a root scope carrying
one counting cleanup `5`: the mock ran once, the callback array is empty. -/
def c1FinalWorld : World :=
  { ctrls := [{ cleanupCallbacks := [], childControllers := [], aborted := true }],
    cells := [], nextId := 2, trace := [5] }

/-- A wrapper context mid-life: context `0` carries the wrapper's registered
`abortCell` cleanup and one live child `1`, the wrapper's current child, held
in cell `0`. -/
def switchMidWorld : World :=
  { ctrls := [{ cleanupCallbacks := [⟨1, .abortCell 0⟩],
                childControllers := [1], aborted := false },
              { cleanupCallbacks := [⟨2, .nop⟩, ⟨3, .detach 0 1⟩],
                childControllers := [], aborted := false }],
    cells := [some 1], nextId := 4, trace := [] }

/-- The world one more wrapped invocation yields on `switchMidWorld`: the
previous child `1` aborted and detached, a fresh child `2` live under `0`,
and the cell switched over to `2`. -/
def switchMidWorldAfter : World :=
  { ctrls := [{ cleanupCallbacks := [⟨1, .abortCell 0⟩],
                childControllers := [2], aborted := false },
              { cleanupCallbacks := [], childControllers := [], aborted := true },
              { cleanupCallbacks := [⟨4, .nop⟩, ⟨5, .detach 0 2⟩],
                childControllers := [], aborted := false }],
    cells := [some 2], nextId := 6, trace := [] }

end Scenarios

/-! Basic facts about the world accessors. -/

theorem ctrl_oor (w : World) (c : Nat) (h : w.ctrls.length ≤ c) :
    w.ctrl c = defaultCtrl := by
  simp [World.ctrl, List.getD_eq_getElem?_getD, List.getElem?_eq_none h]

theorem ctrl_in_range (w : World) (c : Nat) (h : c < w.ctrls.length) :
    w.ctrl c ∈ w.ctrls := by
  have : w.ctrl c = w.ctrls[c] := by
    simp [World.ctrl, List.getD_eq_getElem?_getD, List.getElem?_eq_getElem h]
  rw [this]
  exact List.getElem_mem h

@[simp] theorem trace_modifyCtrl (w : World) (c : Nat) (f : Ctrl → Ctrl) :
    (w.modifyCtrl c f).trace = w.trace := rfl

@[simp] theorem cells_modifyCtrl (w : World) (c : Nat) (f : Ctrl → Ctrl) :
    (w.modifyCtrl c f).cells = w.cells := rfl

@[simp] theorem nextId_modifyCtrl (w : World) (c : Nat) (f : Ctrl → Ctrl) :
    (w.modifyCtrl c f).nextId = w.nextId := rfl

@[simp] theorem length_modifyCtrl (w : World) (c : Nat) (f : Ctrl → Ctrl) :
    (w.modifyCtrl c f).ctrls.length = w.ctrls.length := by
  simp [World.modifyCtrl, World.setCtrl]

theorem ctrl_modifyCtrl_self (w : World) (c : Nat) (f : Ctrl → Ctrl)
    (h : c < w.ctrls.length) : (w.modifyCtrl c f).ctrl c = f (w.ctrl c) := by
  simp [World.modifyCtrl, World.setCtrl, World.ctrl,
    List.getD_eq_getElem?_getD, List.getElem?_set_self', h]

theorem ctrl_modifyCtrl_ne (w : World) (c j : Nat) (f : Ctrl → Ctrl)
    (h : j ≠ c) : (w.modifyCtrl c f).ctrl j = w.ctrl j := by
  simp [World.modifyCtrl, World.setCtrl, World.ctrl,
    List.getD_eq_getElem?_getD, List.getElem?_set_ne (Ne.symm h)]

theorem modifyCtrl_oor (w : World) (c : Nat) (f : Ctrl → Ctrl)
    (h : w.ctrls.length ≤ c) : w.modifyCtrl c f = w := by
  simp [World.modifyCtrl, World.setCtrl, List.set_eq_of_length_le h]

@[simp] theorem ctrl_push (w : World) (x : Nat) (j : Nat) :
    (w.push x).ctrl j = w.ctrl j := rfl

@[simp] theorem ctrls_push (w : World) (x : Nat) :
    (w.push x).ctrls = w.ctrls := rfl

@[simp] theorem nextId_push (w : World) (x : Nat) :
    (w.push x).nextId = w.nextId := rfl

@[simp] theorem cells_push (w : World) (x : Nat) :
    (w.push x).cells = w.cells := rfl

@[simp] theorem trace_push (w : World) (x : Nat) :
    (w.push x).trace = w.trace ++ [x] := rfl

@[simp] theorem ctrl_setCell (w : World) (i : Nat) (v : Option Nat)
    (j : Nat) : (w.setCell i v).ctrl j = w.ctrl j := rfl

@[simp] theorem ctrls_setCell (w : World) (i : Nat) (v : Option Nat) :
    (w.setCell i v).ctrls = w.ctrls := rfl

@[simp] theorem nextId_setCell (w : World) (i : Nat) (v : Option Nat) :
    (w.setCell i v).nextId = w.nextId := rfl

@[simp] theorem trace_setCell (w : World) (i : Nat) (v : Option Nat) :
    (w.setCell i v).trace = w.trace := rfl

/-! Facts about splicing a wrapped cleanup out of a callback array. -/

theorem eraseFirstId_sublist (i : Nat) (L : List Cleanup) :
    (eraseFirstId i L).Sublist L := by
  induction L with
  | nil => simp [eraseFirstId]
  | cons a rest ih =>
    by_cases h : a.id = i
    · simp [eraseFirstId, h]
    · simpa [eraseFirstId, h] using ih.cons₂ a

theorem eraseFirstId_of_forall (i : Nat) (L : List Cleanup)
    (h : ∀ cl ∈ L, cl.id ≠ i) : eraseFirstId i L = L := by
  induction L with
  | nil => rfl
  | cons a rest ih =>
    have ha : a.id ≠ i := h a (by simp)
    simp only [eraseFirstId, if_neg ha]
    rw [ih fun cl hcl => h cl (by simp [hcl])]

theorem eraseFirstId_decomp (cl : Cleanup) (L : List Cleanup) (hm : cl ∈ L)
    (hnd : (L.map Cleanup.id).Nodup) :
    ∃ L1 L2, L = L1 ++ cl :: L2 ∧ eraseFirstId cl.id L = L1 ++ L2 ∧
      ∀ x ∈ L1 ++ L2, x.id ≠ cl.id := by
  induction L with
  | nil => cases hm
  | cons a rest ih =>
    by_cases h : a.id = cl.id
    · have hacl : a = cl := by
        rcases List.mem_cons.mp hm with rfl | hrest
        · rfl
        · exfalso
          have : cl.id ∈ rest.map Cleanup.id := List.mem_map_of_mem _ hrest
          have := (List.nodup_cons.mp hnd).1
          rw [h] at this
          exact this ‹cl.id ∈ rest.map Cleanup.id›
      refine ⟨[], rest, by simp [hacl], by simp [eraseFirstId, h], ?_⟩
      intro x hx
      have hxid : x.id ∈ rest.map Cleanup.id := List.mem_map_of_mem _ (by simpa using hx)
      intro hxcl
      have := (List.nodup_cons.mp hnd).1
      rw [h] at this
      rw [hxcl] at hxid
      exact this hxid
    · have hrest : cl ∈ rest := by
        rcases List.mem_cons.mp hm with rfl | hr
        · exact absurd rfl h
        · exact hr
      obtain ⟨L1, L2, hL, hE, hid⟩ := ih hrest (List.nodup_cons.mp hnd).2
      refine ⟨a :: L1, L2, by simp [hL], ?_, ?_⟩
      · simp only [eraseFirstId, if_neg h]
        rw [hE]
        simp
      · intro x hx
        rcases List.mem_cons.mp hx with rfl | hx2
        · exact h
        · exact hid x hx2

theorem countP_eraseFirstId (q : Cleanup → Bool) (cl : Cleanup)
    (L : List Cleanup) (hm : cl ∈ L) (hnd : (L.map Cleanup.id).Nodup) :
    (eraseFirstId cl.id L).countP q + (if q cl then 1 else 0) = L.countP q := by
  obtain ⟨L1, L2, hL, hE, _⟩ := eraseFirstId_decomp cl L hm hnd
  subst hL
  rw [hE]
  simp [List.countP_append, List.countP_cons]
  omega

theorem length_eraseFirstId (cl : Cleanup) (L : List Cleanup) (hm : cl ∈ L)
    (hnd : (L.map Cleanup.id).Nodup) :
    (eraseFirstId cl.id L).length + 1 = L.length := by
  obtain ⟨L1, L2, hL, hE, _⟩ := eraseFirstId_decomp cl L hm hnd
  subst hL
  rw [hE]
  simp
  omega

/-! Counting emit mocks across the world. -/

@[simp] theorem countEmit_nil (l : Nat) : countEmit l [] = 0 := rfl

theorem countEmit_append (l : Nat) (L1 L2 : List Cleanup) :
    countEmit l (L1 ++ L2) = countEmit l L1 + countEmit l L2 :=
  List.countP_append _ L1 L2

theorem countEmit_singleton (l : Nat) (cl : Cleanup) :
    countEmit l [cl] = if cl.act = .emit l then 1 else 0 := by
  simp [countEmit, List.countP_cons]

theorem natSum_set (L : List Nat) (c x : Nat) (h : c < L.length) :
    (L.set c x).sum + L.getD c 0 = L.sum + x := by
  induction L generalizing c with
  | nil => simp at h
  | cons a rest ih =>
    cases c with
    | zero => simp [List.getD_cons_zero]; omega
    | succ c =>
      have hc : c < rest.length := by simpa using h
      have hih := ih c hc
      show a + ((rest.set c x).sum) + rest.getD c 0 = a + rest.sum + x
      omega

theorem map_getD_countEmit (L : List Ctrl) (l : Nat) (c : Nat)
    (h : c < L.length) :
    (L.map fun ct => countEmit l ct.cleanupCallbacks).getD c 0 =
      countEmit l (L.getD c defaultCtrl).cleanupCallbacks := by
  rw [List.getD_eq_getElem?_getD, List.getD_eq_getElem?_getD,
    List.getElem?_map, List.getElem?_eq_getElem h]
  rfl

theorem listCount_modifyCtrl (w : World) (c : Nat) (f : Ctrl → Ctrl)
    (l : Nat) (h : c < w.ctrls.length) :
    (w.modifyCtrl c f).listCount l + countEmit l (w.ctrl c).cleanupCallbacks =
      w.listCount l + countEmit l (f (w.ctrl c)).cleanupCallbacks := by
  show ((w.ctrls.set c (f (w.ctrl c))).map _).sum + _ = _
  rw [List.map_set]
  have hset := natSum_set (w.ctrls.map fun ct => countEmit l ct.cleanupCallbacks)
    c (countEmit l (f (w.ctrl c)).cleanupCallbacks) (by simpa using h)
  rw [map_getD_countEmit w.ctrls l c h] at hset
  exact hset

theorem listCount_modifyCtrl_keep (w : World) (c : Nat) (f : Ctrl → Ctrl)
    (l : Nat) (hf : (f (w.ctrl c)).cleanupCallbacks = (w.ctrl c).cleanupCallbacks) :
    (w.modifyCtrl c f).listCount l = w.listCount l := by
  rcases Nat.lt_or_ge c w.ctrls.length with h | h
  · have := listCount_modifyCtrl w c f l h
    rw [hf] at this
    omega
  · rw [modifyCtrl_oor w c f h]

theorem listCount_appendCtrl (w : World) (ct : Ctrl) (l : Nat) :
    ({ w with ctrls := w.ctrls ++ [ct] } : World).listCount l =
      w.listCount l + countEmit l ct.cleanupCallbacks := by
  simp [World.listCount]

theorem countEmit_le_listCount (w : World) (c : Nat) (l : Nat) :
    countEmit l (w.ctrl c).cleanupCallbacks ≤ w.listCount l := by
  rcases Nat.lt_or_ge c w.ctrls.length with h | h
  · refine List.single_le_sum (by simp) _ ?_
    have : w.ctrl c = w.ctrls[c] := by
      simp [World.ctrl, List.getD_eq_getElem?_getD, List.getElem?_eq_getElem h]
    rw [this]
    exact List.mem_map_of_mem _ (List.getElem_mem h)
  · rw [ctrl_oor w c h]
    simp [defaultCtrl]

theorem traceCount_push (w : World) (x l : Nat) :
    (w.push x).traceCount l = w.traceCount l + (if x = l then 1 else 0) := by
  simp [World.traceCount, World.push, List.count_append, List.count_cons]

@[simp] theorem listCount_push (w : World) (x l : Nat) :
    (w.push x).listCount l = w.listCount l := rfl

theorem totalCount_push (w : World) (x l : Nat) :
    (w.push x).totalCount l = w.totalCount l + (if x = l then 1 else 0) := by
  simp [World.totalCount, traceCount_push]
  omega

@[simp] theorem traceCount_modifyCtrl (w : World) (c : Nat) (f : Ctrl → Ctrl)
    (l : Nat) : (w.modifyCtrl c f).traceCount l = w.traceCount l := rfl

@[simp] theorem totalCount_setCell (w : World) (i : Nat) (v : Option Nat)
    (l : Nat) : (w.setCell i v).totalCount l = w.totalCount l := rfl

/-! Bridges from the decidable well-formedness conditions to the indexed
ones, used to discharge hypotheses on concrete worlds. -/

theorem tame_of_dec (w : World) (h : w.TameDec) : w.Tame := by
  intro j cl hcl
  rcases Nat.lt_or_ge j w.ctrls.length with hj | hj
  · exact h (w.ctrl j) (ctrl_in_range w j hj) cl hcl
  · rw [ctrl_oor w j hj] at hcl
    cases hcl

theorem noSelfReg_of_dec (w : World) (h : w.NoSelfRegDec) : w.NoSelfReg := by
  intro j cl hcl l hact
  rcases Nat.lt_or_ge j w.ctrls.length with hj | hj
  · have h2 := h j hj cl (by simpa [World.ctrl] using hcl)
    rw [hact] at h2
    simp [selfRegOn] at h2
  · rw [ctrl_oor w j hj] at hcl
    cases hcl

theorem idsOk_of_dec (w : World) (h : w.IdsOkDec) : w.IdsOk := by
  obtain ⟨hnd, hbound⟩ := h
  rw [List.nodup_flatten] at hnd
  obtain ⟨heach, hpair⟩ := hnd
  have hmem : ∀ j, j < w.ctrls.length → idsOf (w.ctrl j) ∈ w.ctrls.map idsOf := by
    intro j hj
    exact List.mem_map_of_mem _ (ctrl_in_range w j hj)
  have hdisj : ∀ j k, j < w.ctrls.length → k < w.ctrls.length → j ≠ k →
      ∀ i, i ∈ idsOf (w.ctrl j) → i ∉ idsOf (w.ctrl k) := by
    have hget := (List.pairwise_iff_getElem).mp hpair
    intro j k hj hk hjk i hij hik
    have hctrlj : w.ctrl j = w.ctrls[j] := by
      simp [World.ctrl, List.getD_eq_getElem?_getD, List.getElem?_eq_getElem hj]
    have hctrlk : w.ctrl k = w.ctrls[k] := by
      simp [World.ctrl, List.getD_eq_getElem?_getD, List.getElem?_eq_getElem hk]
    rcases Nat.lt_or_ge j k with hlt | hge
    · have := hget j k (by simpa using hj) (by simpa using hk) hlt
      simp only [List.getElem_map] at this
      rw [hctrlj] at hij
      rw [hctrlk] at hik
      exact this hij hik
    · have hlt : k < j := by omega
      have := hget k j (by simpa using hk) (by simpa using hj) hlt
      simp only [List.getElem_map] at this
      rw [hctrlj] at hij
      rw [hctrlk] at hik
      exact this hik hij
  refine ⟨?_, ?_, ?_⟩
  · intro j
    rcases Nat.lt_or_ge j w.ctrls.length with hj | hj
    · exact heach _ (hmem j hj)
    · rw [ctrl_oor w j hj]
      simp [idsOf, defaultCtrl]
  · intro j k hjk i hij
    rcases Nat.lt_or_ge j w.ctrls.length with hj | hj
    · rcases Nat.lt_or_ge k w.ctrls.length with hk | hk
      · exact hdisj j k hj hk hjk i hij
      · rw [ctrl_oor w k hk]
        simp [idsOf, defaultCtrl]
    · rw [ctrl_oor w j hj] at hij
      simp [idsOf, defaultCtrl] at hij
  · intro j i hij
    rcases Nat.lt_or_ge j w.ctrls.length with hj | hj
    · exact hbound i (List.mem_flatten.mpr ⟨_, hmem j hj, hij⟩)
    · rw [ctrl_oor w j hj] at hij
      simp [idsOf, defaultCtrl] at hij

/-! The evolution relations are reflexive and transitive. -/

theorem ev0Refl (w : World) : Ev0 w w := by
  refine ⟨le_refl _, le_refl _, ?_, ?_, ?_, ?_, ?_, ?_, ?_, ?_⟩ <;>
    intros <;> simp_all

theorem evRefl (w : World) : Ev w w :=
  { ev0Refl w with conserve := fun _ => rfl }

theorem ev0Trans {w1 w2 w3 : World} (a : Ev0 w1 w2) (b : Ev0 w2 w3) :
    Ev0 w1 w3 := by
  refine ⟨le_trans a.lenLe b.lenLe, le_trans a.nextIdLe b.nextIdLe, ?_, ?_, ?_, ?_, ?_, ?_, ?_, ?_⟩
  · intro j h
    exact b.abortedMono j (a.abortedMono j h)
  · intro j h
    rw [b.frozen j (a.abortedMono j h), a.frozen j h]
  · intro j h1 h3
    cases hab2 : (w2.ctrl j).aborted with
    | true =>
      rw [b.frozen j hab2]
      exact a.newAborted j h1 hab2
    | false => exact b.newAborted j hab2 h3
  · intro j hj h3
    have hab2 : (w2.ctrl j).aborted = false := by
      cases hab2 : (w2.ctrl j).aborted with
      | true => rw [b.abortedMono j hab2] at h3; cases h3
      | false => rfl
    rw [b.stable j (lt_of_lt_of_le hj a.lenLe) h3, a.stable j hj hab2]
  · intro j l
    exact le_trans (b.emitShrink j l) (a.emitShrink j l)
  · intro j i h
    rcases b.idsGrow j i h with h2 | h2
    · rcases a.idsGrow j i h2 with h1 | h1
      · exact Or.inl h1
      · exact Or.inr h1
    · exact Or.inr (le_trans a.nextIdLe h2)
  · exact fun h => b.idsOk (a.idsOk h)
  · exact fun h => b.tame (a.tame h)

theorem evTrans {w1 w2 w3 : World} (a : Ev w1 w2) (b : Ev w2 w3) :
    Ev w1 w3 :=
  { ev0Trans a.toEv0 b.toEv0 with
    conserve := fun l => (b.conserve l).trans (a.conserve l) }

theorem ctrl_eq_getElem (w : World) (c : Nat) (h : c < w.ctrls.length) :
    w.ctrl c = w.ctrls[c] := by
  simp [World.ctrl, List.getD_eq_getElem?_getD, List.getElem?_eq_getElem h]

theorem listCount_congr (w w' : World)
    (hlen : w'.ctrls.length = w.ctrls.length)
    (hcl : ∀ j, (w'.ctrl j).cleanupCallbacks = (w.ctrl j).cleanupCallbacks)
    (l : Nat) : w'.listCount l = w.listCount l := by
  show ((w'.ctrls.map fun ct => countEmit l ct.cleanupCallbacks)).sum = _
  have : (w'.ctrls.map fun ct => countEmit l ct.cleanupCallbacks) =
      (w.ctrls.map fun ct => countEmit l ct.cleanupCallbacks) := by
    refine List.ext_getElem (by simpa using hlen) ?_
    intro n h1 h2
    simp only [List.getElem_map]
    have hn : n < w'.ctrls.length := by simpa using h1
    have hn2 : n < w.ctrls.length := by simpa using h2
    rw [← ctrl_eq_getElem w' n hn, ← ctrl_eq_getElem w n hn2, hcl n]
  rw [this]
  rfl

theorem ev_of_cleanEq (w w' : World)
    (hlen : w'.ctrls.length = w.ctrls.length)
    (hcl : ∀ j, (w'.ctrl j).cleanupCallbacks = (w.ctrl j).cleanupCallbacks)
    (hab : ∀ j, (w'.ctrl j).aborted = (w.ctrl j).aborted)
    (hid : w'.nextId = w.nextId) (htr : w'.trace = w.trace) : Ev w w' := by
  have hids : ∀ j, idsOf (w'.ctrl j) = idsOf (w.ctrl j) := by
    intro j
    simp [idsOf, hcl j]
  refine ⟨⟨le_of_eq hlen.symm, le_of_eq hid.symm, ?_, ?_, ?_, ?_, ?_, ?_, ?_, ?_⟩, ?_⟩
  · intro j h
    rw [hab j]; exact h
  · intro j h
    exact hcl j
  · intro j h1 h2
    rw [hab j] at h2
    rw [h1] at h2
    cases h2
  · intro j hj h
    exact hcl j
  · intro j l
    rw [hcl j]
  · intro j i h
    rw [hids j] at h
    exact Or.inl h
  · intro h
    obtain ⟨h1, h2, h3⟩ := h
    refine ⟨fun j => by rw [hids j]; exact h1 j,
      fun j k hjk i hi => by rw [hids j] at hi; rw [hids k]; exact h2 j k hjk i hi,
      fun j i hi => by rw [hids j] at hi; rw [hid]; exact h3 j i hi⟩
  · intro h j cl hcl2
    rw [hcl j] at hcl2
    exact h j cl hcl2
  · intro l
    show w'.traceCount l + w'.listCount l = _
    rw [listCount_congr w w' hlen hcl l]
    show w'.trace.count l + _ = _
    rw [htr]
    rfl

theorem ev_modifyChildren (w : World) (c : Nat) (f : Ctrl → Ctrl)
    (hcl : (f (w.ctrl c)).cleanupCallbacks = (w.ctrl c).cleanupCallbacks)
    (hab : (f (w.ctrl c)).aborted = (w.ctrl c).aborted) :
    Ev w (w.modifyCtrl c f) := by
  rcases Nat.lt_or_ge c w.ctrls.length with h | h
  · refine ev_of_cleanEq w _ (by simp) ?_ ?_ rfl rfl
    · intro j
      rcases eq_or_ne j c with rfl | hne
      · rw [ctrl_modifyCtrl_self w j f h, hcl]
      · rw [ctrl_modifyCtrl_ne w c j f hne]
    · intro j
      rcases eq_or_ne j c with rfl | hne
      · rw [ctrl_modifyCtrl_self w j f h, hab]
      · rw [ctrl_modifyCtrl_ne w c j f hne]
  · rw [modifyCtrl_oor w c f h]
    exact evRefl w

theorem ev_setCell (w : World) (i : Nat) (v : Option Nat) :
    Ev w (w.setCell i v) :=
  ev_of_cleanEq w _ (by simp) (fun j => rfl) (fun j => rfl) rfl rfl

theorem ev0_push (w : World) (x : Nat) : Ev0 w (w.push x) := by
  refine ⟨by simp, by simp, ?_, ?_, ?_, ?_, ?_, ?_, ?_, ?_⟩ <;>
    simp_all [World.Tame, World.IdsOk]

/-! Pointwise descriptions of `onAbort`, `newController` and
`createChildController`. -/

@[simp] theorem onAbort_snd (c : Nat) (a : UserAct) (w : World) :
    (onAbort c a w).2 = w.nextId := rfl

@[simp] theorem onAbort_length (c : Nat) (a : UserAct) (w : World) :
    (onAbort c a w).1.ctrls.length = w.ctrls.length := by
  simp [onAbort]

@[simp] theorem onAbort_nextId (c : Nat) (a : UserAct) (w : World) :
    (onAbort c a w).1.nextId = w.nextId + 1 := rfl

@[simp] theorem onAbort_trace (c : Nat) (a : UserAct) (w : World) :
    (onAbort c a w).1.trace = w.trace := rfl

@[simp] theorem onAbort_cells (c : Nat) (a : UserAct) (w : World) :
    (onAbort c a w).1.cells = w.cells := rfl

theorem ctrl_withNextId (w : World) (n : Nat) (j : Nat) :
    ({ w with nextId := n } : World).ctrl j = w.ctrl j := rfl

theorem onAbort_ctrl_self (c : Nat) (a : UserAct) (w : World)
    (h : c < w.ctrls.length) :
    (onAbort c a w).1.ctrl c =
      { w.ctrl c with cleanupCallbacks :=
          (w.ctrl c).cleanupCallbacks ++ [⟨w.nextId, a⟩] } := by
  show (({ w with nextId := w.nextId + 1 } : World).modifyCtrl c fun ct =>
      { ct with cleanupCallbacks := ct.cleanupCallbacks ++ [⟨w.nextId, a⟩] }).ctrl c = _
  have h2 : c < ({ w with nextId := w.nextId + 1 } : World).ctrls.length := h
  rw [ctrl_modifyCtrl_self _ c _ h2, ctrl_withNextId]

theorem onAbort_ctrl_ne (c j : Nat) (a : UserAct) (w : World)
    (h : j ≠ c) : (onAbort c a w).1.ctrl j = w.ctrl j := by
  show (({ w with nextId := w.nextId + 1 } : World).modifyCtrl c fun ct =>
      { ct with cleanupCallbacks := ct.cleanupCallbacks ++ [⟨w.nextId, a⟩] }).ctrl j = _
  rw [ctrl_modifyCtrl_ne _ c j _ h, ctrl_withNextId]

theorem ctrl_appendCtrl_new (w : World) (ct : Ctrl) :
    ({ w with ctrls := w.ctrls ++ [ct] } : World).ctrl w.ctrls.length = ct := by
  simp [World.ctrl, List.getD_eq_getElem?_getD]

theorem ctrl_appendCtrl_old (w : World) (ct : Ctrl) (j : Nat)
    (h : j ≠ w.ctrls.length) :
    ({ w with ctrls := w.ctrls ++ [ct] } : World).ctrl j = w.ctrl j := by
  rcases Nat.lt_or_ge j w.ctrls.length with hj | hj
  · simp [World.ctrl, List.getD_eq_getElem?_getD, List.getElem?_append_left hj]
  · have hj2 : w.ctrls.length < j := by omega
    rw [ctrl_oor w j (by omega)]
    show (w.ctrls ++ [ct]).getD j defaultCtrl = _
    have hlen : (w.ctrls ++ [ct]).length ≤ j := by simp; omega
    rw [List.getD_eq_getElem?_getD, List.getElem?_eq_none hlen]
    rfl

theorem newController_snd (w : World) : (newController w).2 = w.ctrls.length := rfl

theorem newController_ctrl_new (w : World) :
    (newController w).1.ctrl w.ctrls.length =
      ⟨[⟨w.nextId, .nop⟩], [], false⟩ := by
  show (onAbort w.ctrls.length .nop { w with ctrls := w.ctrls ++ [defaultCtrl] }).1.ctrl _ = _
  have h : w.ctrls.length < ({ w with ctrls := w.ctrls ++ [defaultCtrl] } : World).ctrls.length := by
    simp
  rw [onAbort_ctrl_self _ _ _ h, ctrl_appendCtrl_new]
  rfl

theorem newController_ctrl_old (w : World) (j : Nat)
    (h : j ≠ w.ctrls.length) : (newController w).1.ctrl j = w.ctrl j := by
  show (onAbort w.ctrls.length .nop { w with ctrls := w.ctrls ++ [defaultCtrl] }).1.ctrl j = _
  rw [onAbort_ctrl_ne _ _ _ _ h, ctrl_appendCtrl_old _ _ _ h]

@[simp] theorem newController_length (w : World) :
    (newController w).1.ctrls.length = w.ctrls.length + 1 := by
  show (onAbort _ _ _).1.ctrls.length = _
  rw [onAbort_length]
  simp

@[simp] theorem newController_nextId (w : World) :
    (newController w).1.nextId = w.nextId + 1 := rfl

@[simp] theorem newController_trace (w : World) :
    (newController w).1.trace = w.trace := rfl

@[simp] theorem newController_cells (w : World) :
    (newController w).1.cells = w.cells := rfl

theorem ccc_snd (parent : Nat) (w : World) :
    (createChildController parent w).2 = w.ctrls.length := rfl

@[simp] theorem ccc_length (parent : Nat) (w : World) :
    (createChildController parent w).1.ctrls.length = w.ctrls.length + 1 := by
  show (onAbort _ _ ((newController w).1.modifyCtrl parent _)).1.ctrls.length = _
  rw [onAbort_length, length_modifyCtrl, newController_length]

@[simp] theorem ccc_nextId (parent : Nat) (w : World) :
    (createChildController parent w).1.nextId = w.nextId + 2 := rfl

@[simp] theorem ccc_trace (parent : Nat) (w : World) :
    (createChildController parent w).1.trace = w.trace := rfl

@[simp] theorem ccc_cells (parent : Nat) (w : World) :
    (createChildController parent w).1.cells = w.cells := rfl

theorem ccc_ctrl_new (parent : Nat) (w : World) (hp : parent ≠ w.ctrls.length) :
    (createChildController parent w).1.ctrl w.ctrls.length =
      ⟨[⟨w.nextId, .nop⟩, ⟨w.nextId + 1, .detach parent w.ctrls.length⟩],
        [], false⟩ := by
  show (onAbort w.ctrls.length (.detach parent w.ctrls.length)
      ((newController w).1.modifyCtrl parent _)).1.ctrl _ = _
  have h : w.ctrls.length <
      ((newController w).1.modifyCtrl parent fun ct =>
        { ct with childControllers := ct.childControllers ++ [w.ctrls.length] }).ctrls.length := by
    rw [length_modifyCtrl, newController_length]
    omega
  rw [onAbort_ctrl_self _ _ _ h]
  rw [ctrl_modifyCtrl_ne _ parent _ _ (Ne.symm hp), newController_ctrl_new,
    nextId_modifyCtrl, newController_nextId]
  rfl

theorem ccc_ctrl_parent (parent : Nat) (w : World)
    (hp : parent < w.ctrls.length) :
    (createChildController parent w).1.ctrl parent =
      { w.ctrl parent with childControllers :=
          (w.ctrl parent).childControllers ++ [w.ctrls.length] } := by
  have hpne : parent ≠ w.ctrls.length := by omega
  show (onAbort w.ctrls.length (.detach parent w.ctrls.length)
      ((newController w).1.modifyCtrl parent _)).1.ctrl parent = _
  rw [onAbort_ctrl_ne _ _ _ _ hpne]
  have h : parent < (newController w).1.ctrls.length := by
    rw [newController_length]
    omega
  rw [ctrl_modifyCtrl_self _ parent _ h]
  rw [newController_ctrl_old _ _ hpne]

theorem ccc_ctrl_other (parent : Nat) (w : World) (j : Nat)
    (hj1 : j ≠ parent) (hj2 : j ≠ w.ctrls.length) :
    (createChildController parent w).1.ctrl j = w.ctrl j := by
  show (onAbort w.ctrls.length (.detach parent w.ctrls.length)
      ((newController w).1.modifyCtrl parent _)).1.ctrl j = _
  rw [onAbort_ctrl_ne _ _ _ _ hj2, ctrl_modifyCtrl_ne _ parent j _ hj1,
    newController_ctrl_old _ _ hj2]

/-- The cleanup callbacks and the aborted flag of the fresh child, valid for
every parent argument (when the parent index is out of range the extra
modification only touches child arrays). -/
theorem ccc_ctrl_new_clean (parent : Nat) (w : World) :
    ((createChildController parent w).1.ctrl w.ctrls.length).cleanupCallbacks =
      [⟨w.nextId, .nop⟩, ⟨w.nextId + 1, .detach parent w.ctrls.length⟩] ∧
    ((createChildController parent w).1.ctrl w.ctrls.length).aborted = false := by
  rcases eq_or_ne parent w.ctrls.length with rfl | hp
  · have hctrl : (createChildController w.ctrls.length w).1.ctrl w.ctrls.length =
        ⟨[⟨w.nextId, .nop⟩, ⟨w.nextId + 1, .detach w.ctrls.length w.ctrls.length⟩],
          [w.ctrls.length], false⟩ := by
      show ((onAbort w.ctrls.length (.detach w.ctrls.length w.ctrls.length)
        ((newController w).1.modifyCtrl w.ctrls.length _)).1.ctrl _) = _
      have h : w.ctrls.length <
          ((newController w).1.modifyCtrl w.ctrls.length fun ct =>
            { ct with childControllers := ct.childControllers ++ [w.ctrls.length] }).ctrls.length := by
        rw [length_modifyCtrl, newController_length]
        omega
      rw [onAbort_ctrl_self _ _ _ h]
      have h2 : w.ctrls.length < (newController w).1.ctrls.length := by
        rw [newController_length]
        omega
      rw [ctrl_modifyCtrl_self _ _ _ h2, newController_ctrl_new,
        nextId_modifyCtrl, newController_nextId]
      rfl
    rw [hctrl]
    exact ⟨rfl, rfl⟩
  · rw [ccc_ctrl_new parent w hp]
    exact ⟨rfl, rfl⟩

theorem ctrls_map_eq_range (w : World) (f : Ctrl → Nat) :
    w.ctrls.map f = (List.range w.ctrls.length).map fun j => f (w.ctrl j) := by
  refine List.ext_getElem (by simp) ?_
  intro n h1 h2
  have hn : n < w.ctrls.length := by simpa using h1
  simp only [List.getElem_map, List.getElem_range]
  rw [ctrl_eq_getElem w n hn]

theorem listCount_range (w : World) (l : Nat) :
    w.listCount l = ((List.range w.ctrls.length).map fun j =>
      countEmit l (w.ctrl j).cleanupCallbacks).sum := by
  show (w.ctrls.map _).sum = _
  rw [ctrls_map_eq_range]

theorem ev_of_extendOne (w w' : World)
    (hlen : w'.ctrls.length = w.ctrls.length + 1)
    (hcl : ∀ j, j < w.ctrls.length →
      (w'.ctrl j).cleanupCallbacks = (w.ctrl j).cleanupCallbacks)
    (hab : ∀ j, j < w.ctrls.length → (w'.ctrl j).aborted = (w.ctrl j).aborted)
    (hnab : (w'.ctrl w.ctrls.length).aborted = false)
    (hnemit : ∀ l, countEmit l (w'.ctrl w.ctrls.length).cleanupCallbacks = 0)
    (hnlb : ∀ i ∈ idsOf (w'.ctrl w.ctrls.length), w.nextId ≤ i)
    (hnub : ∀ i ∈ idsOf (w'.ctrl w.ctrls.length), i < w'.nextId)
    (hnnd : (idsOf (w'.ctrl w.ctrls.length)).Nodup)
    (hntame : ∀ cl ∈ (w'.ctrl w.ctrls.length).cleanupCallbacks,
      TameAct cl.act = true)
    (hid : w.nextId ≤ w'.nextId)
    (htr : w'.trace = w.trace) : Ev w w' := by
  have hoorW : ∀ j, w.ctrls.length ≤ j → w.ctrl j = defaultCtrl := fun j hj =>
    ctrl_oor w j hj
  have hoorW2 : ∀ j, w.ctrls.length < j → w'.ctrl j = defaultCtrl := by
    intro j hj
    exact ctrl_oor w' j (by omega)
  have hidsEq : ∀ j, j < w.ctrls.length → idsOf (w'.ctrl j) = idsOf (w.ctrl j) := by
    intro j hj
    simp [idsOf, hcl j hj]
  refine ⟨⟨by omega, hid, ?_, ?_, ?_, ?_, ?_, ?_, ?_, ?_⟩, ?_⟩
  · intro j h
    rcases Nat.lt_trichotomy j w.ctrls.length with hj | rfl | hj
    · rw [hab j hj]; exact h
    · rw [hoorW _ (le_refl _)] at h; cases h
    · rw [hoorW j (by omega)] at h; cases h
  · intro j h
    rcases Nat.lt_trichotomy j w.ctrls.length with hj | rfl | hj
    · exact hcl j hj
    · rw [hoorW _ (le_refl _)] at h; cases h
    · rw [hoorW j (by omega)] at h; cases h
  · intro j h1 h2
    rcases Nat.lt_trichotomy j w.ctrls.length with hj | rfl | hj
    · rw [hab j hj] at h2; rw [h1] at h2; cases h2
    · rw [hnab] at h2; cases h2
    · rw [hoorW2 j hj] at h2; cases h2
  · intro j hj h
    exact hcl j hj
  · intro j l
    rcases Nat.lt_trichotomy j w.ctrls.length with hj | rfl | hj
    · rw [hcl j hj]
    · rw [hoorW _ (le_refl _)]
      rw [hnemit l]
      simp [defaultCtrl]
    · rw [hoorW2 j hj]
      simp [defaultCtrl]
  · intro j i h
    rcases Nat.lt_trichotomy j w.ctrls.length with hj | rfl | hj
    · rw [hidsEq j hj] at h
      exact Or.inl h
    · exact Or.inr (hnlb i h)
    · rw [hoorW2 j hj] at h
      simp [idsOf, defaultCtrl] at h
  · rintro ⟨h1, h2, h3⟩
    refine ⟨?_, ?_, ?_⟩
    · intro j
      rcases Nat.lt_trichotomy j w.ctrls.length with hj | rfl | hj
      · rw [hidsEq j hj]; exact h1 j
      · exact hnnd
      · rw [hoorW2 j hj]; simp [idsOf, defaultCtrl]
    · intro j k hjk i hij hik
      rcases Nat.lt_trichotomy j w.ctrls.length with hj | rfl | hj
      · rw [hidsEq j hj] at hij
        rcases Nat.lt_trichotomy k w.ctrls.length with hk | rfl | hk
        · rw [hidsEq k hk] at hik
          exact h2 j k hjk i hij hik
        · have := hnlb i hik
          have := h3 j i hij
          omega
        · rw [hoorW2 k hk] at hik
          simp [idsOf, defaultCtrl] at hik
      · rcases Nat.lt_trichotomy k w.ctrls.length with hk | rfl | hk
        · rw [hidsEq k hk] at hik
          have := hnlb i hij
          have := h3 k i hik
          omega
        · exact hjk rfl
        · rw [hoorW2 k hk] at hik
          simp [idsOf, defaultCtrl] at hik
      · rw [hoorW2 j hj] at hij
        simp [idsOf, defaultCtrl] at hij
    · intro j i hij
      rcases Nat.lt_trichotomy j w.ctrls.length with hj | rfl | hj
      · rw [hidsEq j hj] at hij
        have := h3 j i hij
        omega
      · exact hnub i hij
      · rw [hoorW2 j hj] at hij
        simp [idsOf, defaultCtrl] at hij
  · intro ht j cl hclm
    rcases Nat.lt_trichotomy j w.ctrls.length with hj | rfl | hj
    · rw [hcl j hj] at hclm
      exact ht j cl hclm
    · exact hntame cl hclm
    · rw [hoorW2 j hj] at hclm
      simp [defaultCtrl] at hclm
  · intro l
    have htc : w'.traceCount l = w.traceCount l := by
      show w'.trace.count l = w.trace.count l
      rw [htr]
    have hlc : w'.listCount l = w.listCount l := by
      rw [listCount_range w' l, listCount_range w l, hlen, List.range_succ]
      rw [List.map_append, List.sum_append]
      have hmap : (List.range w.ctrls.length).map
          (fun j => countEmit l (w'.ctrl j).cleanupCallbacks) =
          (List.range w.ctrls.length).map
          (fun j => countEmit l (w.ctrl j).cleanupCallbacks) := by
        refine List.map_congr_left ?_
        intro j hj
        rw [hcl j (List.mem_range.mp hj)]
      rw [hmap]
      simp [hnemit l]
    show w'.traceCount l + w'.listCount l = _
    rw [htc, hlc]
    rfl

theorem ev_createChildController (parent : Nat) (w : World) :
    Ev w (createChildController parent w).1 := by
  obtain ⟨hncl, hnab⟩ := ccc_ctrl_new_clean parent w
  refine ev_of_extendOne w _ (ccc_length parent w) ?_ ?_ hnab ?_ ?_ ?_ ?_ ?_ ?_ ?_
  · intro j hj
    rcases eq_or_ne j parent with rfl | hne
    · rw [ccc_ctrl_parent j w hj]
    · rw [ccc_ctrl_other parent w j hne (by omega)]
  · intro j hj
    rcases eq_or_ne j parent with rfl | hne
    · rw [ccc_ctrl_parent j w hj]
    · rw [ccc_ctrl_other parent w j hne (by omega)]
  · intro l
    rw [hncl]
    simp [countEmit, List.countP_cons]
  · intro i hi
    rw [idsOf, hncl] at hi
    simp at hi
    rcases hi with rfl | rfl <;> omega
  · intro i hi
    rw [idsOf, hncl] at hi
    simp at hi
    rw [ccc_nextId]
    rcases hi with rfl | rfl <;> omega
  · rw [idsOf, hncl]
    simp
  · intro cl hcl
    rw [hncl] at hcl
    simp at hcl
    rcases hcl with rfl | rfl <;> rfl
  · rw [ccc_nextId]
    omega
  · exact ccc_trace parent w

theorem Ev.toEvC (c : Nat) {w w' : World} (h : Ev w w') : EvC c w w' :=
  ⟨h.lenLe, h.nextIdLe, h.abortedMono, h.frozen, h.newAborted,
    fun j _ hj hab => h.stable j hj hab, h.emitShrink, h.idsGrow,
    h.idsOk, h.tame, h.conserve⟩

theorem evcTrans {c : Nat} {w1 w2 w3 : World} (a : EvC c w1 w2)
    (b : EvC c w2 w3) : EvC c w1 w3 := by
  refine ⟨le_trans a.lenLe b.lenLe, le_trans a.nextIdLe b.nextIdLe,
    ?_, ?_, ?_, ?_, ?_, ?_, ?_, ?_, ?_⟩
  · intro j h
    exact b.abortedMono j (a.abortedMono j h)
  · intro j h
    rw [b.frozen j (a.abortedMono j h), a.frozen j h]
  · intro j h1 h3
    cases hab2 : (w2.ctrl j).aborted with
    | true =>
      rw [b.frozen j hab2]
      exact a.newAborted j h1 hab2
    | false => exact b.newAborted j hab2 h3
  · intro j hjc hj h3
    have hab2 : (w2.ctrl j).aborted = false := by
      cases hab2 : (w2.ctrl j).aborted with
      | true => rw [b.abortedMono j hab2] at h3; cases h3
      | false => rfl
    rw [b.stableNe j hjc (lt_of_lt_of_le hj a.lenLe) h3, a.stableNe j hjc hj hab2]
  · intro j l
    exact le_trans (b.emitShrink j l) (a.emitShrink j l)
  · intro j i h
    rcases b.idsGrow j i h with h2 | h2
    · rcases a.idsGrow j i h2 with h1 | h1
      · exact Or.inl h1
      · exact Or.inr h1
    · exact Or.inr (le_trans a.nextIdLe h2)
  · exact fun h => b.idsOk (a.idsOk h)
  · exact fun h => b.tame (a.tame h)
  · intro l
    exact (b.conserve l).trans (a.conserve l)

theorem EvC.toEv {c : Nat} {w w' : World} (h : EvC c w w')
    (habort : c < w.ctrls.length → (w'.ctrl c).aborted = true) : Ev w w' := by
  refine ⟨⟨h.lenLe, h.nextIdLe, h.abortedMono, h.frozen, h.newAborted,
    ?_, h.emitShrink, h.idsGrow, h.idsOk, h.tame⟩, h.conserve⟩
  intro j hj hab
  rcases eq_or_ne j c with rfl | hne
  · rw [habort hj] at hab
    cases hab
  · exact h.stableNe j hne hj hab

/-! Pointwise description of `removeCleanup` and the aborted-flag update. -/

@[simp] theorem removeCleanup_trace (c i : Nat) (w : World) :
    (removeCleanup c i w).trace = w.trace := rfl

@[simp] theorem removeCleanup_cells (c i : Nat) (w : World) :
    (removeCleanup c i w).cells = w.cells := rfl

@[simp] theorem removeCleanup_nextId (c i : Nat) (w : World) :
    (removeCleanup c i w).nextId = w.nextId := rfl

@[simp] theorem removeCleanup_length (c i : Nat) (w : World) :
    (removeCleanup c i w).ctrls.length = w.ctrls.length := by
  show (w.modifyCtrl c _).ctrls.length = _
  rw [length_modifyCtrl]

theorem removeCleanup_ctrl_self (c i : Nat) (w : World)
    (h : c < w.ctrls.length) :
    (removeCleanup c i w).ctrl c =
      { w.ctrl c with cleanupCallbacks :=
          eraseFirstId i (w.ctrl c).cleanupCallbacks } :=
  ctrl_modifyCtrl_self w c _ h

theorem removeCleanup_ctrl_ne (c i j : Nat) (w : World) (h : j ≠ c) :
    (removeCleanup c i w).ctrl j = w.ctrl j :=
  ctrl_modifyCtrl_ne w c j _ h

theorem nonempty_in_range (w : World) (c : Nat)
    (h : (w.ctrl c).cleanupCallbacks ≠ []) : c < w.ctrls.length := by
  rcases Nat.lt_or_ge c w.ctrls.length with hc | hc
  · exact hc
  · rw [ctrl_oor w c hc] at h
    exact absurd rfl h

theorem ev_setAbortedTrue (c : Nat) (w : World)
    (hemp : (w.ctrl c).cleanupCallbacks = []) :
    Ev w (w.modifyCtrl c fun ct => { ct with aborted := true }) := by
  rcases Nat.lt_or_ge c w.ctrls.length with h | h
  · have hself := ctrl_modifyCtrl_self w c (fun ct => { ct with aborted := true }) h
    have hcl : ∀ j, ((w.modifyCtrl c fun ct => { ct with aborted := true }).ctrl j).cleanupCallbacks
        = (w.ctrl j).cleanupCallbacks := by
      intro j
      rcases eq_or_ne j c with rfl | hne
      · rw [hself]
      · rw [ctrl_modifyCtrl_ne w c j _ hne]
    refine ⟨⟨by simp, by simp, ?_, fun j _ => hcl j, ?_, fun j _ _ => hcl j,
      ?_, ?_, ?_, ?_⟩, ?_⟩
    · intro j hab
      rcases eq_or_ne j c with rfl | hne
      · rw [hself]
      · rw [ctrl_modifyCtrl_ne w c j _ hne]
        exact hab
    · intro j h1 h2
      rcases eq_or_ne j c with rfl | hne
      · rw [hcl j, hemp]
      · rw [ctrl_modifyCtrl_ne w c j _ hne] at h2
        rw [h1] at h2
        cases h2
    · intro j l
      rw [hcl j]
    · intro j i hi
      rw [show idsOf ((w.modifyCtrl c fun ct => { ct with aborted := true }).ctrl j) =
        idsOf (w.ctrl j) from by simp [idsOf, hcl j]] at hi
      exact Or.inl hi
    · rintro ⟨h1, h2, h3⟩
      have hids : ∀ j, idsOf ((w.modifyCtrl c fun ct => { ct with aborted := true }).ctrl j)
          = idsOf (w.ctrl j) := by
        intro j
        simp [idsOf, hcl j]
      exact ⟨fun j => by rw [hids j]; exact h1 j,
        fun j k hjk i hi => by rw [hids j] at hi; rw [hids k]; exact h2 j k hjk i hi,
        fun j i hi => by rw [hids j] at hi; simpa using h3 j i hi⟩
    · intro ht j cl hclm
      rw [hcl j] at hclm
      exact ht j cl hclm
    · intro l
      show _ + _ = _
      rw [listCount_congr w _ (by simp) hcl l]
      rfl
  · rw [modifyCtrl_oor w c _ h]
    exact evRefl w

theorem createController_error (c : Nat) (w : World) (e : Err)
    (h : createController c w = .error e) :
    e = .alreadyAborted ∧ (w.ctrl c).aborted = true := by
  unfold createController at h
  split at h
  · cases h
    exact ⟨rfl, by assumption⟩
  · cases h

theorem createController_ok (c : Nat) (w : World) (p : World × Nat)
    (h : createController c w = .ok p) :
    (w.ctrl c).aborted = false ∧ p = createChildController c w := by
  unfold createController at h
  split at h
  · cases h
  · cases h
    exact ⟨by simpa using ‹¬(w.ctrl c).aborted = true›, rfl⟩

/-! The zero-fuel base of the induction. -/

theorem pAbort_zero : PAbort 0 := by
  intro c w hw
  constructor
  · simp [abortCtrl]
  · intro w' h
    simp [abortCtrl] at h

theorem pChild_zero : PChild 0 := by
  intro c i w hw
  constructor
  · simp [childLoop]
  · intro w' h
    simp [childLoop] at h

theorem pClean_zero : PClean 0 := by
  intro c i w hw hab
  constructor
  · simp [cleanupLoop]
  · intro w' h
    simp [cleanupLoop] at h

theorem pWrap_zero : PWrap 0 := by
  intro c cl w hw hab hm
  constructor
  · simp [runWrapped]
  · intro w' h
    simp [runWrapped] at h

theorem pAct_zero : PAct 0 := by
  intro a w hw ht
  constructor
  · simp [runAct]
  · intro w' h
    simp [runAct] at h

/-- One user act, assuming the abort clause one fuel level below. -/
theorem stepAct (fuel : Nat) (ihA : PAbort fuel) : PAct (fuel + 1) := by
  intro a w hw hta
  cases a with
  | nop =>
    constructor
    · simp [runAct]
    · intro w' h
      simp only [runAct] at h
      cases h
      exact ⟨(evRefl w).toEv0, by intro l; simp⟩
  | emit l0 =>
    constructor
    · simp [runAct]
    · intro w' h
      simp only [runAct] at h
      cases h
      refine ⟨ev0_push w l0, ?_⟩
      intro l
      rw [totalCount_push]
      have : (UserAct.emit l0 = UserAct.emit l) ↔ (l0 = l) := by simp
      by_cases hl : l0 = l
      · simp [hl]
      · simp [hl]
  | detach p ch =>
    constructor
    · simp [runAct]
    · intro w' h
      simp only [runAct] at h
      cases h
      refine ⟨(ev_modifyChildren w p _ rfl rfl).toEv0, ?_⟩
      intro l
      have := (ev_modifyChildren w p
        (fun ct => { ct with childControllers := eraseFirstNat ch ct.childControllers })
        rfl rfl).conserve l
      simp [this]
  | abortCell i =>
    cases hcell : w.cell i with
    | none =>
      constructor
      · simp [runAct, hcell]
      · intro w' h
        simp only [runAct, hcell] at h
        cases h
        exact ⟨(evRefl w).toEv0, by intro l; simp⟩
    | some d =>
      cases habt : abortCtrl fuel d w with
      | error e =>
        constructor
        · simp only [runAct, hcell, habt]
          intro hcontra
          cases hcontra
          exact (ihA d w hw).1 habt
        · intro w' h
          simp only [runAct, hcell, habt] at h
          cases h
      | ok w1 =>
        have hev := ((ihA d w hw).2 w1 habt).1
        constructor
        · simp [runAct, hcell, habt]
        · intro w' h
          simp only [runAct, hcell, habt] at h
          cases h
          refine ⟨(evTrans hev (ev_setCell w1 i none)).toEv0, ?_⟩
          intro l
          have h1 := hev.conserve l
          have h2 := (ev_setCell w1 i none).conserve l
          simp [h2, h1]
  | createChild c =>
    cases hcc : createController c w with
    | error e =>
      have := createController_error c w e hcc
      constructor
      · simp only [runAct, hcc]
        intro hcontra
        cases hcontra
        cases this.1
      · intro w' h
        simp only [runAct, hcc] at h
        cases h
    | ok p =>
      obtain ⟨hnab, rfl⟩ := createController_ok c w p hcc
      constructor
      · simp [runAct, hcc]
      · intro w' h
        simp only [runAct, hcc] at h
        cases h
        refine ⟨(ev_createChildController c w).toEv0, ?_⟩
        intro l
        have := (ev_createChildController c w).conserve l
        simp [this]
  | registerOn c l => simp [TameAct] at hta
  | probeAborted c => simp [TameAct] at hta

theorem eraseFirstId_subset (i : Nat) (L : List Cleanup) (x : Cleanup)
    (h : x ∈ eraseFirstId i L) : x ∈ L :=
  (eraseFirstId_sublist i L).mem h

theorem removeCleanup_aborted (c i j : Nat) (w : World) :
    ((removeCleanup c i w).ctrl j).aborted = (w.ctrl j).aborted := by
  rcases eq_or_ne j c with rfl | hne
  · rcases Nat.lt_or_ge j w.ctrls.length with hr | hr
    · rw [removeCleanup_ctrl_self j i w hr]
    · show ((w.modifyCtrl j _).ctrl j).aborted = _
      rw [modifyCtrl_oor w j _ hr]
  · rw [removeCleanup_ctrl_ne c i j w hne]

theorem removeCleanup_ids_sub (c i j : Nat) (w : World) (x : Nat)
    (h : x ∈ idsOf ((removeCleanup c i w).ctrl j)) : x ∈ idsOf (w.ctrl j) := by
  rcases eq_or_ne j c with rfl | hne
  · rcases Nat.lt_or_ge j w.ctrls.length with hr | hr
    · rw [removeCleanup_ctrl_self j i w hr] at h
      simp only [idsOf, List.mem_map] at h ⊢
      obtain ⟨cl, hcl, rfl⟩ := h
      exact ⟨cl, eraseFirstId_subset i _ cl hcl, rfl⟩
    · have heq : removeCleanup j i w = w := modifyCtrl_oor w j _ hr
      rw [heq] at h
      exact h
  · rw [removeCleanup_ctrl_ne c i j w hne] at h
    exact h

theorem removeCleanup_cleanups_sub (c i j : Nat) (w : World) (x : Cleanup)
    (h : x ∈ ((removeCleanup c i w).ctrl j).cleanupCallbacks) :
    x ∈ (w.ctrl j).cleanupCallbacks := by
  rcases eq_or_ne j c with rfl | hne
  · rcases Nat.lt_or_ge j w.ctrls.length with hr | hr
    · rw [removeCleanup_ctrl_self j i w hr] at h
      exact eraseFirstId_subset i _ x h
    · have heq : removeCleanup j i w = w := modifyCtrl_oor w j _ hr
      rw [heq] at h
      exact h
  · rw [removeCleanup_ctrl_ne c i j w hne] at h
    exact h

theorem idsOk_removeCleanup (c i : Nat) (w : World) (h : w.IdsOk) :
    (removeCleanup c i w).IdsOk := by
  obtain ⟨h1, h2, h3⟩ := h
  refine ⟨?_, ?_, ?_⟩
  · intro j
    rcases eq_or_ne j c with rfl | hne
    · rcases Nat.lt_or_ge j w.ctrls.length with hr | hr
      · rw [removeCleanup_ctrl_self j i w hr]
        show ((eraseFirstId i (w.ctrl j).cleanupCallbacks).map Cleanup.id).Nodup
        exact List.Nodup.sublist ((eraseFirstId_sublist i _).map Cleanup.id) (h1 j)
      · show (idsOf ((w.modifyCtrl j _).ctrl j)).Nodup
        rw [modifyCtrl_oor w j _ hr]
        exact h1 j
    · rw [removeCleanup_ctrl_ne c i j w hne]
      exact h1 j
  · intro j k hjk x hj hk
    exact h2 j k hjk x (removeCleanup_ids_sub c i j w x hj)
      (removeCleanup_ids_sub c i k w x hk)
  · intro j x hx
    exact h3 j x (removeCleanup_ids_sub c i j w x hx)

theorem tame_removeCleanup (c i : Nat) (w : World) (h : w.Tame) :
    (removeCleanup c i w).Tame := by
  intro j cl hcl
  exact h j cl (removeCleanup_cleanups_sub c i j w cl hcl)

/-- One wrapped cleanup call, assuming the act clause one level below. -/
theorem stepWrap (fuel : Nat) (ihR : PAct fuel) : PWrap (fuel + 1) := by
  intro c cl w hw hab hm
  have hrange : c < w.ctrls.length := by
    refine nonempty_in_range w c ?_
    intro hemp
    rw [hemp] at hm
    cases hm
  have hta : TameAct cl.act = true := hw.2 c cl hm
  cases hact : runAct fuel cl.act w with
  | error e =>
    constructor
    · simp only [runWrapped, hact]
      intro hcontra
      cases hcontra
      exact (ihR cl.act w hw hta).1 hact
    · intro w' h
      simp only [runWrapped, hact] at h
      cases h
  | ok w1 =>
    obtain ⟨hev0, hshift⟩ := (ihR cl.act w hw hta).2 w1 hact
    have hrange1 : c < w1.ctrls.length := lt_of_lt_of_le hrange hev0.lenLe
    constructor
    · simp [runWrapped, hact]
    · intro w' h
      simp only [runWrapped, hact] at h
      cases h
      cases hab1 : (w1.ctrl c).aborted with
      | true =>
        have hemp : (w1.ctrl c).cleanupCallbacks = [] :=
          hev0.newAborted c hab hab1
        have hdelta : ∀ l, (if cl.act = .emit l then 1 else 0) = 0 := by
          intro l
          cases hactk : cl.act with
          | emit l0 =>
            exfalso
            rw [hactk] at hact
            cases fuel with
            | zero => simp [runAct] at hact
            | succ f2 =>
              simp only [runAct] at hact
              cases hact
              rw [ctrl_push] at hab1
              rw [hab] at hab1
              cases hab1
          | nop => rfl
          | detach p ch => rfl
          | abortCell i2 => rfl
          | createChild c2 => rfl
          | registerOn c2 l2 => rfl
          | probeAborted c2 => rfl
        have hEv1 : Ev w w1 := by
          refine ⟨hev0, ?_⟩
          intro l
          rw [hshift l, hdelta l]
          rfl
        have hctrlc : (removeCleanup c cl.id w1).ctrl c = w1.ctrl c := by
          have h0 : eraseFirstId cl.id (w1.ctrl c).cleanupCallbacks =
              (w1.ctrl c).cleanupCallbacks := by
            rw [hemp]
            rfl
          rw [removeCleanup_ctrl_self c cl.id w1 hrange1, h0]
        have hev12 : Ev w1 (removeCleanup c cl.id w1) := by
          refine ev_of_cleanEq w1 _ (by simp) ?_ ?_ rfl rfl
          · intro j
            rcases eq_or_ne j c with rfl | hne
            · rw [hctrlc]
            · rw [removeCleanup_ctrl_ne c cl.id j w1 hne]
          · intro j
            rcases eq_or_ne j c with rfl | hne
            · rw [hctrlc]
            · rw [removeCleanup_ctrl_ne c cl.id j w1 hne]
        refine ⟨(evTrans hEv1 hev12).toEvC c, ?_⟩
        have h0 : ((removeCleanup c cl.id w1).ctrl c).cleanupCallbacks.length = 0 := by
          rw [hctrlc, hemp]
          rfl
        have hpos : 0 < (w.ctrl c).cleanupCallbacks.length :=
          List.length_pos.mpr (by intro hnil; rw [hnil] at hm; cases hm)
        omega
      | false =>
        have hstable : (w1.ctrl c).cleanupCallbacks = (w.ctrl c).cleanupCallbacks :=
          hev0.stable c hrange hab1
        have hidsOk1 : w1.IdsOk := hev0.idsOk hw.1
        have hnd : ((w1.ctrl c).cleanupCallbacks.map Cleanup.id).Nodup := hidsOk1.1 c
        have hm1 : cl ∈ (w1.ctrl c).cleanupCallbacks := by
          rw [hstable]
          exact hm
        have hctrlc : ((removeCleanup c cl.id w1).ctrl c).cleanupCallbacks =
            eraseFirstId cl.id (w1.ctrl c).cleanupCallbacks := by
          rw [removeCleanup_ctrl_self c cl.id w1 hrange1]
        have hcount : ∀ l, countEmit l (eraseFirstId cl.id (w1.ctrl c).cleanupCallbacks) +
            (if cl.act = .emit l then 1 else 0) =
            countEmit l (w1.ctrl c).cleanupCallbacks := by
          intro l
          have := countP_eraseFirstId (fun x => decide (x.act = .emit l)) cl _ hm1 hnd
          simpa [countEmit] using this
        have hlen12 : (eraseFirstId cl.id (w1.ctrl c).cleanupCallbacks).length + 1 =
            (w1.ctrl c).cleanupCallbacks.length :=
          length_eraseFirstId cl _ hm1 hnd
        have habeq : ∀ j, ((removeCleanup c cl.id w1).ctrl j).aborted =
            (w1.ctrl j).aborted := fun j => removeCleanup_aborted c cl.id j w1
        have hconserve : ∀ l, (removeCleanup c cl.id w1).totalCount l = w.totalCount l := by
          intro l
          have h1 : (removeCleanup c cl.id w1).listCount l +
              countEmit l (w1.ctrl c).cleanupCallbacks =
              w1.listCount l +
              countEmit l (eraseFirstId cl.id (w1.ctrl c).cleanupCallbacks) :=
            listCount_modifyCtrl w1 c _ l hrange1
          have h2 := hcount l
          have h3 := hshift l
          have htr : (removeCleanup c cl.id w1).traceCount l = w1.traceCount l := rfl
          show (removeCleanup c cl.id w1).traceCount l + _ = _
          show _ + (removeCleanup c cl.id w1).listCount l = w.traceCount l + w.listCount l
          have h4 : w1.totalCount l = w.totalCount l + (if cl.act = .emit l then 1 else 0) := h3
          show (removeCleanup c cl.id w1).traceCount l + (removeCleanup c cl.id w1).listCount l = _
          rw [htr]
          have h5 : w1.totalCount l = w1.traceCount l + w1.listCount l := rfl
          have h6 : w.totalCount l = w.traceCount l + w.listCount l := rfl
          omega
        refine ⟨⟨by rw [removeCleanup_length]; exact hev0.lenLe,
                  by rw [removeCleanup_nextId]; exact hev0.nextIdLe,
                  ?_, ?_, ?_, ?_, ?_, ?_, ?_, ?_, hconserve⟩, ?_⟩
        · intro j hj
          rw [habeq j]
          exact hev0.abortedMono j hj
        · intro j hj
          have hjc : j ≠ c := by
            intro hjc
            rw [hjc, hab] at hj
            cases hj
          rw [removeCleanup_ctrl_ne c cl.id j w1 hjc]
          exact hev0.frozen j hj
        · intro j hj1 hj2
          rw [habeq j] at hj2
          have hjc : j ≠ c := by
            intro hjc
            rw [hjc] at hj2
            rw [hab1] at hj2
            cases hj2
          rw [removeCleanup_ctrl_ne c cl.id j w1 hjc]
          exact hev0.newAborted j hj1 hj2
        · intro j hjc hj hj2
          rw [habeq j] at hj2
          rw [removeCleanup_ctrl_ne c cl.id j w1 hjc]
          exact hev0.stable j hj hj2
        · intro j l
          rcases eq_or_ne j c with rfl | hne
          · rw [hctrlc]
            have := hcount l
            have := hev0.emitShrink j l
            omega
          · rw [removeCleanup_ctrl_ne c cl.id j w1 hne]
            exact hev0.emitShrink j l
        · intro j x hx
          exact hev0.idsGrow j x (removeCleanup_ids_sub c cl.id j w1 x hx)
        · intro h
          exact idsOk_removeCleanup c cl.id w1 (hev0.idsOk h)
        · intro h
          exact tame_removeCleanup c cl.id w1 (hev0.tame h)
        · rw [hctrlc]
          have hsl : (w1.ctrl c).cleanupCallbacks.length =
              (w.ctrl c).cleanupCallbacks.length := by
            rw [hstable]
          omega

theorem mem_of_getElemQ {α : Type} (l : List α) (i : Nat) (a : α)
    (h : l[i]? = some a) : a ∈ l := by
  obtain ⟨hlt, rfl⟩ := List.getElem?_eq_some.mp h
  exact List.getElem_mem hlt

/-- The cleanup loop, assuming the wrapped-call and loop clauses one level
below. -/
theorem stepClean (fuel : Nat) (ihW : PWrap fuel) (ihL : PClean fuel) :
    PClean (fuel + 1) := by
  intro c i w hw hab
  cases i with
  | zero =>
    constructor
    · simp [cleanupLoop]
    · intro w' h
      simp only [cleanupLoop] at h
      cases h
      refine ⟨(evRefl w).toEvC c, ?_⟩
      intro hle
      omega
  | succ i2 =>
    cases hget : (w.ctrl c).cleanupCallbacks[i2]? with
    | none =>
      constructor
      · simp [cleanupLoop, hget]
      · intro w' h
        simp only [cleanupLoop, hget] at h
        cases h
    | some cl =>
      have hm : cl ∈ (w.ctrl c).cleanupCallbacks := mem_of_getElemQ _ i2 cl hget
      cases hwr : runWrapped fuel c cl w with
      | error e =>
        constructor
        · simp only [cleanupLoop, hget, hwr]
          intro hc
          cases hc
          exact (ihW c cl w hw hab hm).1 hwr
        · intro w' h
          simp only [cleanupLoop, hget, hwr] at h
          cases h
      | ok w2 =>
        obtain ⟨hevc, hlt⟩ := (ihW c cl w hw hab hm).2 w2 hwr
        have hw2 : HypW w2 := ⟨hevc.idsOk hw.1, hevc.tame hw.2⟩
        cases hab2 : (w2.ctrl c).aborted with
        | false =>
          obtain ⟨hcne, hok⟩ := ihL c i2 w2 hw2 hab2
          constructor
          · simp only [cleanupLoop, hget, hwr]
            exact hcne
          · intro w' h
            simp only [cleanupLoop, hget, hwr] at h
            obtain ⟨hevc2, hlen2⟩ := hok w' h
            refine ⟨evcTrans hevc hevc2, ?_⟩
            intro hle
            apply hlen2
            omega
        | true =>
          have hemp : (w2.ctrl c).cleanupCallbacks = [] := hevc.newAborted c hab hab2
          cases i2 with
          | zero =>
            cases fuel with
            | zero =>
              constructor
              · simp [cleanupLoop, hget, hwr]
              · intro w' h
                simp only [cleanupLoop, hget, hwr] at h
                cases h
            | succ f3 =>
              constructor
              · simp [cleanupLoop, hget, hwr]
              · intro w' h
                simp only [cleanupLoop, hget, hwr] at h
                cases h
                refine ⟨hevc, ?_⟩
                intro hle
                rw [hemp]
                rfl
          | succ i3 =>
            have hget2 : (w2.ctrl c).cleanupCallbacks[i3]? = none := by
              rw [hemp]
              rfl
            cases fuel with
            | zero =>
              constructor
              · simp [cleanupLoop, hget, hwr]
              · intro w' h
                simp only [cleanupLoop, hget, hwr] at h
                cases h
            | succ f3 =>
              constructor
              · simp [cleanupLoop, hget, hwr, hget2]
              · intro w' h
                simp only [cleanupLoop, hget, hwr, hget2] at h
                cases h

/-- The child loop, assuming the abort and loop clauses one level below. -/
theorem stepChild (fuel : Nat) (ihA : PAbort fuel) (ihC : PChild fuel) :
    PChild (fuel + 1) := by
  intro c i w hw
  cases i with
  | zero =>
    constructor
    · simp [childLoop]
    · intro w' h
      simp only [childLoop] at h
      cases h
      exact evRefl w
  | succ i2 =>
    cases hget : (w.ctrl c).childControllers[i2]? with
    | none =>
      constructor
      · simp [childLoop, hget]
      · intro w' h
        simp only [childLoop, hget] at h
        cases h
    | some d =>
      cases habt : abortCtrl fuel d w with
      | error e =>
        constructor
        · simp only [childLoop, hget, habt]
          intro hc
          cases hc
          exact (ihA d w hw).1 habt
        · intro w' h
          simp only [childLoop, hget, habt] at h
          cases h
      | ok w1 =>
        have hev := ((ihA d w hw).2 w1 habt).1
        have hw1 : HypW w1 := ⟨hev.idsOk hw.1, hev.tame hw.2⟩
        obtain ⟨hcne, hok⟩ := ihC c i2 w1 hw1
        constructor
        · simp only [childLoop, hget, habt]
          exact hcne
        · intro w' h
          simp only [childLoop, hget, habt] at h
          exact evTrans hev (hok w' h)

/-- The abort entry point, assuming the loop clauses one level below. -/
theorem stepAbort (fuel : Nat) (ihC : PChild fuel) (ihL : PClean fuel) :
    PAbort (fuel + 1) := by
  intro c w hw
  cases hab : (w.ctrl c).aborted with
  | true =>
    constructor
    · simp [abortCtrl, hab]
    · intro w' h
      simp only [abortCtrl, hab] at h
      simp at h
      cases h
      exact ⟨evRefl w, fun _ => hab⟩
  | false =>
    cases hcl : childLoop fuel c (w.ctrl c).childControllers.length w with
    | error e =>
      constructor
      · simp only [abortCtrl, hab, hcl]
        intro hc
        simp at hc
        cases hc
        exact (ihC c _ w hw).1 hcl
      · intro w' h
        simp only [abortCtrl, hab, hcl] at h
        simp at h
    | ok w1 =>
      have hev1 : Ev w w1 := (ihC c _ w hw).2 w1 hcl
      have hev1b : Ev w1 (w1.modifyCtrl c fun ct => { ct with childControllers := [] }) :=
        ev_modifyChildren w1 c _ rfl rfl
      have hevW1 : Ev w (w1.modifyCtrl c fun ct => { ct with childControllers := [] }) :=
        evTrans hev1 hev1b
      have hw1 : HypW (w1.modifyCtrl c fun ct => { ct with childControllers := [] }) :=
        ⟨hevW1.idsOk hw.1, hevW1.tame hw.2⟩
      cases hab1 : ((w1.modifyCtrl c fun ct => { ct with childControllers := [] }).ctrl c).aborted with
      | false =>
        obtain ⟨hcne, hok⟩ := ihL c
          ((w1.modifyCtrl c fun ct => { ct with childControllers := [] }).ctrl c).cleanupCallbacks.length
          (w1.modifyCtrl c fun ct => { ct with childControllers := [] }) hw1 hab1
        cases hclean : cleanupLoop fuel c
            ((w1.modifyCtrl c fun ct => { ct with childControllers := [] }).ctrl c).cleanupCallbacks.length
            (w1.modifyCtrl c fun ct => { ct with childControllers := [] }) with
        | error e =>
          constructor
          · simp only [abortCtrl, hab, hcl, hclean]
            intro hc
            simp at hc
            cases hc
            exact hcne hclean
          · intro w' h
            simp only [abortCtrl, hab, hcl, hclean] at h
            simp at h
        | ok w2 =>
          obtain ⟨hevc2, hlen0⟩ := hok w2 hclean
          have hempty : (w2.ctrl c).cleanupCallbacks.length = 0 := hlen0 (le_refl _)
          have hempl : (w2.ctrl c).cleanupCallbacks = [] :=
            List.length_eq_zero.mp hempty
          have hevB : Ev w2 (w2.modifyCtrl c fun ct => { ct with aborted := true }) :=
            ev_setAbortedTrue c w2 hempl
          have hEvAll : EvC c w (w2.modifyCtrl c fun ct => { ct with aborted := true }) :=
            evcTrans (evcTrans (hevW1.toEvC c) hevc2) (hevB.toEvC c)
          have hEvA : EvC c w w2 := evcTrans (hevW1.toEvC c) hevc2
          have habort : c < w.ctrls.length →
              ((w2.modifyCtrl c fun ct => { ct with aborted := true }).ctrl c).aborted = true := by
            intro hr
            have hr2 : c < w2.ctrls.length := lt_of_lt_of_le hr hEvA.lenLe
            rw [ctrl_modifyCtrl_self w2 c _ hr2]
          constructor
          · simp only [abortCtrl, hab, hcl, hclean, hempty]
            simp
          · intro w' h
            simp only [abortCtrl, hab, hcl, hclean, hempty] at h
            simp at h
            cases h
            exact ⟨hEvAll.toEv habort, habort⟩
      | true =>
        have hemp : ((w1.modifyCtrl c fun ct => { ct with childControllers := [] }).ctrl c).cleanupCallbacks = [] :=
          hevW1.newAborted c hab hab1
        cases fuel with
        | zero =>
          constructor
          · simp [abortCtrl, hab, hcl, cleanupLoop, hemp]
          · intro w' h
            simp only [abortCtrl, hab, hcl, hemp] at h
            simp [cleanupLoop] at h
        | succ f3 =>
          have hloop : cleanupLoop (f3 + 1) c 0
              (w1.modifyCtrl c fun ct => { ct with childControllers := [] }) =
              .ok (w1.modifyCtrl c fun ct => { ct with childControllers := [] }) := by
            simp [cleanupLoop]
          have hevB : Ev (w1.modifyCtrl c fun ct => { ct with childControllers := [] })
              ((w1.modifyCtrl c fun ct => { ct with childControllers := [] }).modifyCtrl c
                fun ct => { ct with aborted := true }) :=
            ev_setAbortedTrue c _ hemp
          have hEvAll : Ev w
              ((w1.modifyCtrl c fun ct => { ct with childControllers := [] }).modifyCtrl c
                fun ct => { ct with aborted := true }) :=
            evTrans hevW1 hevB
          have habort : c < w.ctrls.length →
              (((w1.modifyCtrl c fun ct => { ct with childControllers := [] }).modifyCtrl c
                fun ct => { ct with aborted := true }).ctrl c).aborted = true := by
            intro hr
            have hr2 : c < (w1.modifyCtrl c fun ct => { ct with childControllers := [] }).ctrls.length := by
              have := hevW1.lenLe
              omega
            rw [ctrl_modifyCtrl_self _ c _ hr2]
          constructor
          · simp only [abortCtrl, hab, hcl, hemp, List.length_nil, hloop]
            simp [hemp]
          · intro w' h
            simp only [abortCtrl, hab, hcl, hemp, List.length_nil, hloop] at h
            simp [hemp] at h
            cases h
            exact ⟨hEvAll, habort⟩

/-- The five induction clauses hold at every fuel. -/
theorem master : ∀ fuel, PAbort fuel ∧ PChild fuel ∧ PClean fuel ∧
    PWrap fuel ∧ PAct fuel := by
  intro fuel
  induction fuel with
  | zero => exact ⟨pAbort_zero, pChild_zero, pClean_zero, pWrap_zero, pAct_zero⟩
  | succ f ih =>
    obtain ⟨hA, hC, hL, hW, hR⟩ := ih
    exact ⟨stepAbort f hC hL, stepChild f hA hC, stepClean f hW hL,
      stepWrap f hR, stepAct f hA⟩

theorem hypW_of_ev {w w' : World} (hw : HypW w) (h : Ev w w') : HypW w' :=
  ⟨h.idsOk hw.1, h.tame hw.2⟩

/-- A successful `abort()` on a well-formed world is a conservative
evolution and leaves the controller aborted. -/
theorem abortCtrl_ev (fuel c : Nat) (w w' : World) (hw : HypW w)
    (h : abortCtrl fuel c w = .ok w') :
    Ev w w' ∧ (c < w.ctrls.length → (w'.ctrl c).aborted = true) :=
  ((master fuel).1 c w hw).2 w' h

/-- The empty-list assertion of `abort()` can never fire on a well-formed
world whose cleanups are tame. -/
theorem abortCtrl_no_cne (fuel c : Nat) (w : World) (hw : HypW w) :
    abortCtrl fuel c w ≠ .error .cleanupNotEmpty :=
  ((master fuel).1 c w hw).1

/-- A successful sequence of `abort()` calls is a conservative evolution. -/
theorem abortSeq_ev (seq : List (Nat × Nat)) :
    ∀ w w', HypW w → abortSeq seq w = .ok w' → Ev w w' := by
  induction seq with
  | nil =>
    intro w w' hw h
    simp only [abortSeq] at h
    cases h
    exact evRefl w
  | cons p rest ih =>
    intro w w' hw h
    obtain ⟨fuel, c⟩ := p
    simp only [abortSeq] at h
    cases habt : abortCtrl fuel c w with
    | error e =>
      rw [habt] at h
      cases h
    | ok w1 =>
      rw [habt] at h
      have hev1 := (abortCtrl_ev fuel c w w1 hw habt).1
      exact evTrans hev1 (ih w1 w' (hypW_of_ev hw hev1) h)

theorem rangeSum_single (n c : Nat) (f : Nat → Nat) (hcn : c < n)
    (hz : ∀ j, j < n → j ≠ c → f j = 0) :
    ((List.range n).map f).sum = f c := by
  induction n with
  | zero => omega
  | succ m ih =>
    rw [List.range_succ, List.map_append, List.sum_append]
    rcases Nat.lt_or_ge c m with hc | hc
    · rw [ih hc fun j hj hjc => hz j (by omega) hjc]
      simp [hz m (by omega) (by omega)]
    · have hcm : c = m := by omega
      subst hcm
      have : ∀ j ∈ List.range c, f j = 0 := by
        intro j hj
        exact hz j (by simp at hj; omega) (by simp at hj; omega)
      have hsum : ((List.range c).map f).sum = 0 := by
        rw [List.sum_eq_zero]
        intro x hx
        simp only [List.mem_map] at hx
        obtain ⟨j, hj, rfl⟩ := hx
        exact this j hj
      rw [hsum]
      simp

theorem listCount_single (w : World) (c l : Nat) (hcn : c < w.ctrls.length)
    (hz : ∀ j, j ≠ c → countEmit l (w.ctrl j).cleanupCallbacks = 0) :
    w.listCount l = countEmit l (w.ctrl c).cleanupCallbacks := by
  rw [listCount_range]
  exact rangeSum_single _ c _ hcn fun j _ hjc => hz j hjc

theorem listCount_zero (w : World) (l : Nat)
    (hz : ∀ j, countEmit l (w.ctrl j).cleanupCallbacks = 0) :
    w.listCount l = 0 := by
  rw [listCount_range]
  rw [List.sum_eq_zero]
  intro x hx
  simp only [List.mem_map] at hx
  obtain ⟨j, hj, rfl⟩ := hx
  exact hz j

/-- C1: for every scope in a well-formed world of tame cleanups, a counting
mock registered once via `onAbort` runs at most once across ANY sequence of
`abort()` calls on any controllers (covering repeated aborts of the scope
itself and later aborts of ancestors); and whenever the scope has been
aborted by the sequence, the mock has run exactly once and is no longer
registered — never zero times while still registered. -/
theorem c1_cleanup_exactly_once (w : World) (c l : Nat)
    (seq : List (Nat × Nat)) (w' : World)
    (hw1 : w.IdsOk) (hw2 : w.Tame)
    (hab : (w.ctrl c).aborted = false)
    (htr : w.traceCount l = 0)
    (hc : countEmit l (w.ctrl c).cleanupCallbacks = 1)
    (hother : ∀ j, j ≠ c → countEmit l (w.ctrl j).cleanupCallbacks = 0)
    (hrun : abortSeq seq w = .ok w') :
    w'.traceCount l ≤ 1 ∧
    ((w'.ctrl c).aborted = true →
      w'.traceCount l = 1 ∧ countEmit l (w'.ctrl c).cleanupCallbacks = 0) := by
  have hcrange : c < w.ctrls.length := by
    refine nonempty_in_range w c ?_
    intro hnil
    rw [hnil] at hc
    simp at hc
  have hEv : Ev w w' := abortSeq_ev seq w w' ⟨hw1, hw2⟩ hrun
  have hlc : w.listCount l = 1 := by
    rw [listCount_single w c l hcrange hother, hc]
  have htotal : w.totalCount l = 1 := by
    show w.traceCount l + w.listCount l = 1
    omega
  have htotal2 : w'.totalCount l = 1 := by
    rw [hEv.conserve l, htotal]
  have hsplit : w'.totalCount l = w'.traceCount l + w'.listCount l := rfl
  constructor
  · omega
  · intro hab2
    have hnil : (w'.ctrl c).cleanupCallbacks = [] := hEv.newAborted c hab hab2
    have hzc : countEmit l (w'.ctrl c).cleanupCallbacks = 0 := by
      rw [hnil]
      rfl
    have hlz : w'.listCount l = 0 := by
      refine listCount_zero w' l ?_
      intro j
      rcases eq_or_ne j c with rfl | hne
      · exact hzc
      · have h1 := hEv.emitShrink j l
        have h2 := hother j hne
        omega
    exact ⟨by omega, hzc⟩

theorem eraseFirstId_append_last (L : List Cleanup) (x : Cleanup)
    (h : ∀ cl ∈ L, cl.id ≠ x.id) : eraseFirstId x.id (L ++ [x]) = L := by
  induction L with
  | nil => simp [eraseFirstId]
  | cons a rest ih =>
    have ha : a.id ≠ x.id := h a (by simp)
    simp only [List.cons_append, eraseFirstId, if_neg ha]
    show a :: eraseFirstId x.id (rest ++ [x]) = a :: rest
    rw [ih fun cl hcl => h cl (by simp [hcl])]

/-- Running the cleanup loop over an array of emit mocks and inert cleanups
executes them from the last to the first: the trace is extended by the
labels in reverse registration order and the array is emptied, nothing else
changing. -/
theorem cleanupLoop_lifo (cls : List Cleanup) : ∀ fuel c w,
    (w.ctrl c).cleanupCallbacks = cls →
    (cls.map Cleanup.id).Nodup →
    (∀ cl ∈ cls, cl.act = .nop ∨ ∃ l, cl.act = .emit l) →
    c < w.ctrls.length →
    cls.length + 2 ≤ fuel →
    ∃ w', cleanupLoop fuel c cls.length w = .ok w' ∧
      w'.trace = w.trace ++ (cls.reverse.filterMap fun cl => actLabel cl.act) ∧
      (w'.ctrl c).cleanupCallbacks = [] ∧
      (∀ j, j ≠ c → w'.ctrl j = w.ctrl j) ∧
      w'.ctrls.length = w.ctrls.length ∧ w'.cells = w.cells ∧
      w'.nextId = w.nextId ∧
      (w'.ctrl c).aborted = (w.ctrl c).aborted ∧
      (w'.ctrl c).childControllers = (w.ctrl c).childControllers := by
  induction cls using List.reverseRecOn with
  | nil =>
    intro fuel c w hcls hnd hacts hr hfuel
    obtain ⟨f, rfl⟩ : ∃ f, fuel = f + 1 := ⟨fuel - 1, by omega⟩
    refine ⟨w, ?_, by simp, by rw [hcls], fun j _ => rfl, rfl, rfl, rfl, rfl, rfl⟩
    simp [cleanupLoop]
  | append_singleton init last ih =>
    intro fuel c w hcls hnd hacts hr hfuel
    obtain ⟨f, rfl⟩ : ∃ f, fuel = f + 1 := ⟨fuel - 1, by omega⟩
    have hlen : (init ++ [last]).length = init.length + 1 := by simp
    have hget : (w.ctrl c).cleanupCallbacks[init.length]? = some last := by
      rw [hcls]
      rw [List.getElem?_append_right (by omega)]
      simp
    obtain ⟨f2, rfl⟩ : ∃ f2, f = f2 + 1 := ⟨f - 1, by simp at hfuel; omega⟩
    obtain ⟨f3, rfl⟩ : ∃ f3, f2 = f3 + 1 := ⟨f2 - 1, by simp at hfuel; omega⟩
    have hidlast : ∀ cl ∈ init, cl.id ≠ last.id := by
      intro cl hcl hid
      rw [List.map_append] at hnd
      have hdisj := (List.nodup_append.mp hnd).2.2
      have hmem : last.id ∈ init.map Cleanup.id := by
        rw [← hid]
        exact List.mem_map_of_mem _ hcl
      exact hdisj hmem (by simp)
    -- run the last cleanup
    rcases hacts last (by simp) with hnop | ⟨l, hemitl⟩
    · -- inert cleanup: no trace entry
      have hact : runAct (f3 + 1) last.act w = .ok w := by
        rw [hnop]
        simp [runAct]
      have hwr : runWrapped (f3 + 1 + 1) c last w = .ok (removeCleanup c last.id w) := by
        simp only [runWrapped, hact]
      have herase : ((removeCleanup c last.id w).ctrl c).cleanupCallbacks = init := by
        rw [removeCleanup_ctrl_self c last.id w hr]
        show eraseFirstId last.id (w.ctrl c).cleanupCallbacks = init
        rw [hcls]
        exact eraseFirstId_append_last init last hidlast
      have hnd2 : (init.map Cleanup.id).Nodup := by
        rw [List.map_append] at hnd
        exact (List.nodup_append.mp hnd).1
      obtain ⟨w', hok, htr, hcl0, hother, hlen2, hcells, hnid, hab2, hch⟩ :=
        ih (f3 + 1 + 1) c (removeCleanup c last.id w) herase hnd2
          (fun cl hcl => hacts cl (by simp [hcl]))
          (by rw [removeCleanup_length]; exact hr)
          (by simp at hfuel; omega)
      refine ⟨w', ?_, ?_, hcl0, ?_, ?_, ?_, ?_, ?_, ?_⟩
      · show cleanupLoop (f3 + 1 + 1 + 1) c (init ++ [last]).length w = .ok w'
        rw [hlen]
        simp only [cleanupLoop, hget, hwr]
        exact hok
      · rw [htr]
        simp [hnop, actLabel]
      · intro j hj
        rw [hother j hj, removeCleanup_ctrl_ne c last.id j w hj]
      · rw [hlen2, removeCleanup_length]
      · rw [hcells, removeCleanup_cells]
      · rw [hnid, removeCleanup_nextId]
      · rw [hab2, removeCleanup_aborted]
      · rw [hch]
        rw [removeCleanup_ctrl_self c last.id w hr]
    · -- emit mock: label goes on the trace before the rest runs
      have hact : runAct (f3 + 1) last.act w = .ok (w.push l) := by
        rw [hemitl]
        simp [runAct]
      have hwr : runWrapped (f3 + 1 + 1) c last w =
          .ok (removeCleanup c last.id (w.push l)) := by
        simp only [runWrapped, hact]
      have hrp : c < (w.push l).ctrls.length := by
        simpa using hr
      have herase : ((removeCleanup c last.id (w.push l)).ctrl c).cleanupCallbacks = init := by
        rw [removeCleanup_ctrl_self c last.id (w.push l) hrp]
        show eraseFirstId last.id ((w.push l).ctrl c).cleanupCallbacks = init
        rw [ctrl_push, hcls]
        exact eraseFirstId_append_last init last hidlast
      have hnd2 : (init.map Cleanup.id).Nodup := by
        rw [List.map_append] at hnd
        exact (List.nodup_append.mp hnd).1
      obtain ⟨w', hok, htr, hcl0, hother, hlen2, hcells, hnid, hab2, hch⟩ :=
        ih (f3 + 1 + 1) c (removeCleanup c last.id (w.push l)) herase hnd2
          (fun cl hcl => hacts cl (by simp [hcl]))
          (by rw [removeCleanup_length]; exact hrp)
          (by simp at hfuel; omega)
      refine ⟨w', ?_, ?_, hcl0, ?_, ?_, ?_, ?_, ?_, ?_⟩
      · show cleanupLoop (f3 + 1 + 1 + 1) c (init ++ [last]).length w = .ok w'
        rw [hlen]
        simp only [cleanupLoop, hget, hwr]
        exact hok
      · rw [htr]
        show (removeCleanup c last.id (w.push l)).trace ++ _ = _
        rw [removeCleanup_trace, trace_push]
        simp [hemitl, actLabel]
      · intro j hj
        rw [hother j hj, removeCleanup_ctrl_ne c last.id j (w.push l) hj, ctrl_push]
      · rw [hlen2, removeCleanup_length]
        simp
      · rw [hcells, removeCleanup_cells, cells_push]
      · rw [hnid, removeCleanup_nextId, nextId_push]
      · rw [hab2, removeCleanup_aborted, ctrl_push]
      · rw [hch]
        rw [removeCleanup_ctrl_self c last.id (w.push l) hrp, ctrl_push]

/-- Aborting a childless scope runs its cleanups in reverse registration
order. -/
theorem abort_lifo (w : World) (c : Nat) (cls : List Cleanup) (fuel : Nat)
    (hab : (w.ctrl c).aborted = false)
    (hch : (w.ctrl c).childControllers = [])
    (hcls : (w.ctrl c).cleanupCallbacks = cls)
    (hnd : (cls.map Cleanup.id).Nodup)
    (hacts : ∀ cl ∈ cls, cl.act = .nop ∨ ∃ l, cl.act = .emit l)
    (hr : c < w.ctrls.length)
    (hfuel : cls.length + 4 ≤ fuel) :
    ∃ w', abortCtrl fuel c w = .ok w' ∧
      w'.trace = w.trace ++ (cls.reverse.filterMap fun cl => actLabel cl.act) ∧
      (w'.ctrl c).aborted = true ∧ (w'.ctrl c).cleanupCallbacks = [] := by
  obtain ⟨f, rfl⟩ : ∃ f, fuel = f + 1 := ⟨fuel - 1, by omega⟩
  obtain ⟨f2, rfl⟩ : ∃ f2, f = f2 + 1 := ⟨f - 1, by omega⟩
  have hchild : childLoop (f2 + 1) c (w.ctrl c).childControllers.length w = .ok w := by
    rw [hch]
    simp [childLoop]
  have hcls1 : ((w.modifyCtrl c fun ct => { ct with childControllers := [] }).ctrl c).cleanupCallbacks = cls := by
    rw [ctrl_modifyCtrl_self w c _ hr]
    exact hcls
  have hab1 : ((w.modifyCtrl c fun ct => { ct with childControllers := [] }).ctrl c).aborted = false := by
    rw [ctrl_modifyCtrl_self w c _ hr]
    exact hab
  have hr1 : c < (w.modifyCtrl c fun ct => { ct with childControllers := [] }).ctrls.length := by
    rw [length_modifyCtrl]
    exact hr
  obtain ⟨w2, hok2, htr2, hcl02, hother2, hlen2, hcells2, hnid2, hab2, hch2⟩ :=
    cleanupLoop_lifo cls (f2 + 1) c
      (w.modifyCtrl c fun ct => { ct with childControllers := [] })
      hcls1 hnd hacts hr1 (by omega)
  have hloopEq : cleanupLoop (f2 + 1) c
      ((w.modifyCtrl c fun ct => { ct with childControllers := [] }).ctrl c).cleanupCallbacks.length
      (w.modifyCtrl c fun ct => { ct with childControllers := [] }) = .ok w2 := by
    rw [hcls1]
    exact hok2
  have hr2 : c < w2.ctrls.length := by
    rw [hlen2, length_modifyCtrl]
    exact hr
  refine ⟨w2.modifyCtrl c fun ct => { ct with aborted := true }, ?_, ?_, ?_, ?_⟩
  · simp only [abortCtrl, hab, hchild, hloopEq, hcl02]
    simp
  · rw [trace_modifyCtrl, htr2, trace_modifyCtrl]
  · rw [ctrl_modifyCtrl_self w2 c _ hr2]
  · rw [ctrl_modifyCtrl_self w2 c _ hr2]
    exact hcl02

set_option maxHeartbeats 1000000 in
/-- C2: when `abort()` is called on a non-aborted scope the sweep follows the
claimed global order.  First conjunct (proved for every childless scope and
every list of registered mocks): the scope's own cleanup actions run in
strict reverse registration order — registered `A, B, C`, the trace gains
`C, B, A`.  Second conjunct (the three-level tree `treeWorld`: root `0` with
cleanup label 20, children `1` and `2` created in that order with labels 21
and 22, grandchild `3` of `2` with label 23): children are aborted most
recently created first, each child's entire subtree completing before the
next child and before any of the root's own cleanups, giving the global
trace `[23, 22, 21, 20]`. -/
theorem c2_sweep_order :
    (∀ (w : World) (c : Nat) (cls : List Cleanup) (fuel : Nat),
      (w.ctrl c).aborted = false →
      (w.ctrl c).childControllers = [] →
      (w.ctrl c).cleanupCallbacks = cls →
      (cls.map Cleanup.id).Nodup →
      (∀ cl ∈ cls, cl.act = .nop ∨ ∃ l, cl.act = .emit l) →
      c < w.ctrls.length →
      cls.length + 4 ≤ fuel →
      ∃ w', abortCtrl fuel c w = .ok w' ∧
        w'.trace = w.trace ++ (cls.reverse.filterMap fun cl => actLabel cl.act) ∧
        (w'.ctrl c).aborted = true ∧ (w'.ctrl c).cleanupCallbacks = []) ∧
    (abortCtrl 12 0 (treeWorld 20 21 22 23)).map World.trace = .ok [23, 22, 21, 20] := by
  constructor
  · intro w c cls fuel hab hch hcls hnd hacts hr hfuel
    exact abort_lifo w c cls fuel hab hch hcls hnd hacts hr hfuel
  · simp [abortCtrl, childLoop, cleanupLoop, runWrapped, runAct, treeWorld, World.ctrl,
      World.setCtrl, World.modifyCtrl, World.cell, World.setCell, World.push, eraseFirstId,
      eraseFirstNat, onAbort, removeCleanup, newController, createChildController,
      createController, defaultCtrl, World.empty, Except.map]

/-- Witness for C2: the spec's own LIFO test.  On a root scope with counting
cleanups registered in the order 10, 11, 12, the first conjunct of
`c2_sweep_order` yields the trace `[12, 11, 10]`. -/
theorem c2_sweep_order_witness :
    (abortCtrl 12 0 (lifoWorld 10 11 12)).map World.trace = .ok [12, 11, 10] := by
  obtain ⟨w', hok, htr, hab, hcl⟩ := c2_sweep_order.1 (lifoWorld 10 11 12) 0
    [⟨0, .nop⟩, ⟨1, .emit 10⟩, ⟨2, .emit 11⟩, ⟨3, .emit 12⟩] 12
    (by decide) (by decide) (by decide) (by decide)
    (by
      intro cl hcl
      simp only [List.mem_cons, List.not_mem_nil, or_false] at hcl
      rcases hcl with rfl | rfl | rfl | rfl
      · exact Or.inl rfl
      · exact Or.inr ⟨10, rfl⟩
      · exact Or.inr ⟨11, rfl⟩
      · exact Or.inr ⟨12, rfl⟩)
    (by decide) (by decide)
  have htr2 : w'.trace = [12, 11, 10] := by
    rw [htr]
    rfl
  rw [hok]
  simp only [Except.map]
  rw [htr2]

/-! Helpers: `onAbort` preserves the well-formedness hypotheses and adds one
registration to the accounting. -/

theorem onAbort_oor (c : Nat) (a : UserAct) (w : World)
    (hc : w.ctrls.length ≤ c) :
    (onAbort c a w).1 = { w with nextId := w.nextId + 1 } := by
  show ({ w with nextId := w.nextId + 1 } : World).modifyCtrl c
    (fun ct => { ct with cleanupCallbacks := ct.cleanupCallbacks ++ [⟨w.nextId, a⟩] }) = _
  exact modifyCtrl_oor _ c _ hc

theorem idsOf_onAbort_self (c : Nat) (a : UserAct) (w : World)
    (h : c < w.ctrls.length) :
    idsOf ((onAbort c a w).1.ctrl c) = idsOf (w.ctrl c) ++ [w.nextId] := by
  rw [onAbort_ctrl_self c a w h]
  simp [idsOf]

theorem idsOk_onAbort (c : Nat) (a : UserAct) (w : World) (hw : w.IdsOk) :
    (onAbort c a w).1.IdsOk := by
  obtain ⟨h1, h2, h3⟩ := hw
  rcases Nat.lt_or_ge c w.ctrls.length with hc | hc
  · refine ⟨?_, ?_, ?_⟩
    · intro j
      rcases eq_or_ne j c with rfl | hne
      · rw [idsOf_onAbort_self j a w hc]
        have hnotin : w.nextId ∉ idsOf (w.ctrl j) := fun hmem =>
          absurd (h3 j _ hmem) (by omega)
        simp [List.nodup_append, h1 j, hnotin]
      · rw [onAbort_ctrl_ne c j a w hne]
        exact h1 j
    · intro j k hjk i hij hik
      rcases eq_or_ne j c with rfl | hj
      · rw [idsOf_onAbort_self j a w hc] at hij
        rw [onAbort_ctrl_ne j k a w (Ne.symm hjk)] at hik
        simp only [List.mem_append, List.mem_singleton] at hij
        rcases hij with hij | rfl
        · exact h2 j k hjk i hij hik
        · exact absurd (h3 k _ hik) (by omega)
      · rw [onAbort_ctrl_ne c j a w hj] at hij
        rcases eq_or_ne k c with rfl | hk
        · rw [idsOf_onAbort_self k a w hc] at hik
          simp only [List.mem_append, List.mem_singleton] at hik
          rcases hik with hik | rfl
          · exact h2 j k hjk i hij hik
          · exact absurd (h3 j _ hij) (by omega)
        · rw [onAbort_ctrl_ne c k a w hk] at hik
          exact h2 j k hjk i hij hik
    · intro j i hij
      rw [onAbort_nextId]
      rcases eq_or_ne j c with rfl | hj
      · rw [idsOf_onAbort_self j a w hc] at hij
        simp only [List.mem_append, List.mem_singleton] at hij
        rcases hij with hij | rfl
        · have := h3 j i hij
          omega
        · omega
      · rw [onAbort_ctrl_ne c j a w hj] at hij
        have := h3 j i hij
        omega
  · rw [onAbort_oor c a w hc]
    refine ⟨h1, h2, ?_⟩
    intro j i hij
    have := h3 j i hij
    show i < w.nextId + 1
    omega

theorem tame_onAbort (c : Nat) (a : UserAct) (w : World)
    (ha : TameAct a = true) (hw : w.Tame) : (onAbort c a w).1.Tame := by
  intro j cl hcl
  rcases Nat.lt_or_ge c w.ctrls.length with hc | hc
  · rcases eq_or_ne j c with rfl | hne
    · rw [onAbort_ctrl_self j a w hc] at hcl
      simp only [List.mem_append, List.mem_singleton] at hcl
      rcases hcl with h | rfl
      · exact hw j cl h
      · exact ha
    · rw [onAbort_ctrl_ne c j a w hne] at hcl
      exact hw j cl hcl
  · rw [onAbort_oor c a w hc] at hcl
    exact hw j cl hcl

theorem listCount_onAbort (c l : Nat) (a : UserAct) (w : World)
    (hc : c < w.ctrls.length) :
    (onAbort c a w).1.listCount l =
      w.listCount l + (if a = .emit l then 1 else 0) := by
  show (({ w with nextId := w.nextId + 1 } : World).modifyCtrl c _).listCount l = _
  have h := listCount_modifyCtrl { w with nextId := w.nextId + 1 } c
    (fun ct => { ct with cleanupCallbacks := ct.cleanupCallbacks ++ [⟨w.nextId, a⟩] })
    l hc
  rw [ctrl_withNextId] at h
  have h2 : ({ w with nextId := w.nextId + 1 } : World).listCount l =
      w.listCount l := rfl
  rw [h2, countEmit_append, countEmit_singleton] at h
  have hproj : (⟨w.nextId, a⟩ : Cleanup).act = a := rfl
  rw [hproj] at h
  omega

theorem totalCount_onAbort (c l : Nat) (a : UserAct) (w : World)
    (hc : c < w.ctrls.length) :
    (onAbort c a w).1.totalCount l =
      w.totalCount l + (if a = .emit l then 1 else 0) := by
  show (onAbort c a w).1.traceCount l + (onAbort c a w).1.listCount l = _
  have htr : (onAbort c a w).1.traceCount l = w.traceCount l := by
    show ((onAbort c a w).1.trace).count l = _
    rw [onAbort_trace]
    rfl
  rw [htr, listCount_onAbort c l a w hc]
  show w.traceCount l + (w.listCount l + _) = w.traceCount l + w.listCount l + _
  omega

theorem modifyCtrl_self_id (w : World) (c : Nat) (f : Ctrl → Ctrl)
    (h : f (w.ctrl c) = w.ctrl c) : w.modifyCtrl c f = w := by
  rcases Nat.lt_or_ge c w.ctrls.length with hc | hc
  · show World.setCtrl w c (f (w.ctrl c)) = w
    rw [h]
    show { w with ctrls := w.ctrls.set c (w.ctrl c) } = w
    have hset : w.ctrls.set c (w.ctrl c) = w.ctrls := by
      refine List.ext_getElem (by simp) ?_
      intro i h1 h2
      rw [List.getElem_set]
      rcases eq_or_ne c i with rfl | hne
      · simp [ctrl_eq_getElem w c hc]
      · rw [if_neg hne]
    rw [hset]
  · exact modifyCtrl_oor w c f hc

/-- C10: during the cancellation sweep of `probeWorld` — the child's cleanup
probes the root's `aborted()` during the child phase, the root's own cleanup
probes it again during the callback phase, and another root cleanup calls
`createController` on the root mid-sweep — both probes record `false` (trace
`[0, 0]`) because the `_aborted` flag is set only after all cleanups ran and
the empty-list assertion passed, and the mid-sweep `createController` does not
hit the already-aborted guard: it succeeds, leaving a fresh live child `2`
registered under the root, while the root itself ends aborted. -/
theorem c10_flag_set_last :
    abortCtrl 9 0 probeWorld = .ok
      { ctrls := [{ cleanupCallbacks := [], childControllers := [2], aborted := true },
                  { cleanupCallbacks := [], childControllers := [], aborted := true },
                  { cleanupCallbacks := [⟨6, .nop⟩, ⟨7, .detach 0 2⟩],
                    childControllers := [], aborted := false }],
        cells := [], nextId := 8, trace := [0, 0] } := by
  simp [abortCtrl, childLoop, cleanupLoop, runWrapped, runAct, probeWorld, World.ctrl,
    World.setCtrl, World.modifyCtrl, World.cell, World.setCell, World.push, eraseFirstId,
    eraseFirstNat, onAbort, removeCleanup, newController, createChildController,
    createController, defaultCtrl, World.empty]

/-- C9: `race(scope, promise)` merely awaits the promise: when the promise
settles with `v` the world is untouched and the result pairs `v`, unchanged,
with the scope's aborted state as read at settle time; in particular when the
scope was live at call time and an `abort()` completed while the promise was
pending, the reported flag is `true`. -/
theorem c9_race_settle_time :
    (∀ {α : Type} (c : Nat) (v : α) (w : World),
      (race c v w).1 = w ∧ (race c v w).2.1 = v ∧
      (race c v w).2.2 = (w.ctrl c).aborted) ∧
    (∀ {α : Type} (c : Nat) (v : α) (w : World) (fuel : Nat) (w' : World),
      HypW w → c < w.ctrls.length → (w.ctrl c).aborted = false →
      abortCtrl fuel c w = .ok w' →
      (race c v w').2.2 = true) := by
  constructor
  · intro α c v w
    exact ⟨rfl, rfl, rfl⟩
  · intro α c v w fuel w' hw hc hab hrun
    show (w'.ctrl c).aborted = true
    exact (abortCtrl_ev fuel c w w' hw hrun).2 hc

/-- Witness for C9 on a fresh root scope: the scope is live when `race` is
called, an `abort()` completes before the promise settles, and `race` then
reports `aborted = true` alongside the untouched value. -/
theorem c9_race_settle_time_witness :
    (race 0 42
      { ctrls := [{ cleanupCallbacks := [], childControllers := [], aborted := true }],
        cells := [], nextId := 1, trace := [] }).2.2 = true :=
  c9_race_settle_time.2 0 42 rootWorld 4
    { ctrls := [{ cleanupCallbacks := [], childControllers := [], aborted := true }],
      cells := [], nextId := 1, trace := [] }
    ⟨idsOk_of_dec _ (by decide), tame_of_dec _ (by decide)⟩
    (by decide) (by decide) (by decide)

/-- C4: `createController` on an already-aborted scope raises the
already-cancelled error instead of returning a scope; invoking a
switch-wrapped function after the wrapper's context has aborted (its
`currCtrl` cell already nulled by the context's sweep) fails with the same
error, because the wrapped call reaches the same `createController` guard;
and on a live scope `createController` returns the fresh child, which is
appended to the parent's `childControllers` and starts not aborted. -/
theorem c4_aborted_guard :
    (∀ (c : Nat) (w : World), (w.ctrl c).aborted = true →
      createController c w = .error .alreadyAborted) ∧
    (∀ (fuel s cell : Nat) (w : World), (w.ctrl s).aborted = true →
      w.cell cell = none →
      switchInvoke fuel s cell w = .error .alreadyAborted) ∧
    (∀ (c : Nat) (w : World), (w.ctrl c).aborted = false → c < w.ctrls.length →
      createController c w = .ok (createChildController c w) ∧
      (createChildController c w).2 = w.ctrls.length ∧
      ((createChildController c w).1.ctrl c).childControllers =
        (w.ctrl c).childControllers ++ [w.ctrls.length] ∧
      ((createChildController c w).1.ctrl w.ctrls.length).aborted = false) := by
  refine ⟨?_, ?_, ?_⟩
  · intro c w hab
    simp [createController, hab]
  · intro fuel s cell w hab hcell
    simp only [switchInvoke, hcell]
    simp [createController, hab]
  · intro c w hab hc
    refine ⟨by simp [createController, hab], ccc_snd c w, ?_, ?_⟩
    · rw [ccc_ctrl_parent c w hc]
    · exact (ccc_ctrl_new_clean c w).2

/-- Witness for C4: on a single aborted controller `createController` and the
wrapped call both fail with the already-cancelled error; on a live root the
child `1` is created, linked under `0`, and not aborted. -/
theorem c4_aborted_guard_witness :
    createController 0 abortedWorld = .error .alreadyAborted ∧
    switchInvoke 3 0 0 { abortedWorld with cells := [none] } =
      .error .alreadyAborted ∧
    (createController 0 rootWorld = .ok (createChildController 0 rootWorld) ∧
      (createChildController 0 rootWorld).2 = 1 ∧
      ((createChildController 0 rootWorld).1.ctrl 0).childControllers = [1] ∧
      ((createChildController 0 rootWorld).1.ctrl 1).aborted = false) := by
  refine ⟨?_, ?_, ?_⟩
  · exact c4_aborted_guard.1 0 abortedWorld (by decide)
  · exact c4_aborted_guard.2.1 3 0 0 { abortedWorld with cells := [none] }
      (by decide) (by decide)
  · exact c4_aborted_guard.2.2 0 rootWorld (by decide) (by decide)

/-- Refutation for C3: in the authoritative `src/src/effect.ts` transaction,
the synchronous phase of `actAsync` on a live scope registers nothing at all
— the world after invoking the callback is unchanged, its callback array
included — because the `onAbort` call sits inside the `.then` continuation;
this contradicts the claim that the cleanup is registered in the same
synchronous tick as invoking `produce`. -/
theorem c3_sync_registration_cex :
    actAsyncStart 0 rootWorld = (rootWorld, .pending) ∧
    ((actAsyncStart 0 rootWorld).1.ctrl 0).cleanupCallbacks =
      (rootWorld.ctrl 0).cleanupCallbacks := by
  exact ⟨by decide, by decide⟩

/-- C3 as amended: only the packages/effect-controller variant of `actAsync`
registers the cleanup in the same synchronous tick as invoking the callback
(the live scope's callback array gains the wrapped cleanup immediately and
the remove handle is returned at once); the `src/src/effect.ts` variant
registers nothing before the promise settles, but the cleanup is still not
lost when cancellation precedes settlement: the settle continuation of a
scope that aborted while the promise was pending invokes the cleanup
directly (the trace gains its label) and tags the result aborted. -/
theorem c3_sync_registration :
    (∀ (c l : Nat) (w : World), (w.ctrl c).aborted = false →
      c < w.ctrls.length →
      ((actAsyncChoreStart c l w).1.ctrl c).cleanupCallbacks =
        (w.ctrl c).cleanupCallbacks ++ [⟨w.nextId, .emit l⟩] ∧
      (actAsyncChoreStart c l w).2 = some w.nextId) ∧
    (∀ (c : Nat) (w : World), (w.ctrl c).aborted = false →
      actAsyncStart c w = (w, .pending)) ∧
    (∀ (c l : Nat) (w : World), (w.ctrl c).aborted = true →
      actAsyncSettle c l w = (w.push l, true, none)) := by
  refine ⟨?_, ?_, ?_⟩
  · intro c l w hab hc
    simp only [actAsyncChoreStart, hab, Bool.false_eq_true, if_false]
    exact ⟨onAbort_ctrl_self c (.emit l) w hc ▸ rfl, rfl⟩
  · intro c w hab
    simp [actAsyncStart, hab]
  · intro c l w hab
    simp [actAsyncSettle, hab]

/-- Witness for C3 as amended, on a live root scope and on an aborted scope:
the chore-variant start phase registers the wrapped counting cleanup at once,
the effect.ts start phase registers nothing, and the effect.ts settle phase
of an aborted scope runs the cleanup (label `7` reaches the trace). -/
theorem c3_sync_registration_witness :
    (((actAsyncChoreStart 0 7 rootWorld).1.ctrl 0).cleanupCallbacks =
      (rootWorld.ctrl 0).cleanupCallbacks ++ [⟨1, .emit 7⟩] ∧
      (actAsyncChoreStart 0 7 rootWorld).2 = some 1) ∧
    actAsyncStart 0 rootWorld = (rootWorld, .pending) ∧
    actAsyncSettle 0 7 abortedWorld = (abortedWorld.push 7, true, none) := by
  refine ⟨?_, ?_, ?_⟩
  · exact c3_sync_registration.1 0 7 rootWorld (by decide) (by decide)
  · exact c3_sync_registration.2.1 0 rootWorld (by decide)
  · exact c3_sync_registration.2.2 0 7 abortedWorld (by decide)

/-- Refutation for C5 on the src/src/abort.ts iteration: there `onAbort`
returns `wrappedCleanup` itself, not `removeCleanup`, so calling the returned
handle before the scope aborts EXECUTES the user cleanup (the counting mock
`7` reaches the trace) rather than merely deregistering it. -/
theorem c5_remove_handle_cex :
    (callAbortTsHandle 2 0
      (onAbortAbortTs 0 (.emit 7) (newControllerAbortTs World.empty).1).2
      (onAbortAbortTs 0 (.emit 7) (newControllerAbortTs World.empty).1).1).map
        World.trace = .ok [7] := by
  decide

/-- C5 as amended, for the authoritative `src/src/effect.ts` `onAbort`:
calling the returned `removeCleanup` right after registering restores every
controller's callback array exactly (the registration is undone and nothing
ran); calling it when the wrapped cleanup is no longer in the array — already
removed, or already run and therefore self-spliced — is a complete no-op on
the world; and a world holding no registration of a counting mock keeps that
mock off the trace across every sequence of `abort()` calls, so a removed
cleanup is never invoked by future cancellation. -/
theorem c5_remove_suppresses :
    (∀ (c l : Nat) (w : World), w.IdsOk → ∀ j,
      ((removeCleanup c (onAbort c (.emit l) w).2
        (onAbort c (.emit l) w).1).ctrl j).cleanupCallbacks =
        (w.ctrl j).cleanupCallbacks) ∧
    (∀ (c i : Nat) (w : World), i ∉ idsOf (w.ctrl c) →
      removeCleanup c i w = w) ∧
    (∀ (l : Nat) (w : World) (seq : List (Nat × Nat)) (w' : World),
      HypW w → w.totalCount l = 0 → abortSeq seq w = .ok w' →
      w'.traceCount l = 0) := by
  refine ⟨?_, ?_, ?_⟩
  · intro c l w hw j
    simp only [onAbort_snd]
    rcases Nat.lt_or_ge c w.ctrls.length with hc | hc
    · rcases eq_or_ne j c with rfl | hne
      · have hlen : j < (onAbort j (.emit l) w).1.ctrls.length := by
          rw [onAbort_length]
          exact hc
        rw [removeCleanup_ctrl_self j w.nextId _ hlen]
        have h1 : ((onAbort j (.emit l) w).1.ctrl j).cleanupCallbacks =
            (w.ctrl j).cleanupCallbacks ++ [⟨w.nextId, .emit l⟩] := by
          rw [onAbort_ctrl_self j _ w hc]
        show eraseFirstId w.nextId
          ((onAbort j (.emit l) w).1.ctrl j).cleanupCallbacks =
          (w.ctrl j).cleanupCallbacks
        rw [h1]
        refine eraseFirstId_append_last _ ⟨w.nextId, .emit l⟩ ?_
        intro cl hcl hEq
        have hin : cl.id ∈ idsOf (w.ctrl j) :=
          List.mem_map_of_mem Cleanup.id hcl
        have hb := hw.2.2 j cl.id hin
        have : cl.id = w.nextId := hEq
        omega
      · rw [removeCleanup_ctrl_ne c w.nextId j _ hne,
          onAbort_ctrl_ne c j _ w hne]
    · rw [onAbort_oor c _ w hc]
      have hoor : removeCleanup c w.nextId { w with nextId := w.nextId + 1 } =
          { w with nextId := w.nextId + 1 } := modifyCtrl_oor _ c _ hc
      rw [hoor]
      rfl
  · intro c i w hnot
    show w.modifyCtrl c
      (fun ct => { ct with cleanupCallbacks := eraseFirstId i ct.cleanupCallbacks }) = w
    refine modifyCtrl_self_id w c _ ?_
    have herase : eraseFirstId i (w.ctrl c).cleanupCallbacks =
        (w.ctrl c).cleanupCallbacks := by
      refine eraseFirstId_of_forall i _ ?_
      intro cl hcl hEq
      exact hnot (hEq ▸ List.mem_map_of_mem Cleanup.id hcl)
    rw [herase]
  · intro l w seq w' hw htot hrun
    have hEv := abortSeq_ev seq w w' hw hrun
    have hcons := hEv.conserve l
    have hsplit : w'.totalCount l = w'.traceCount l + w'.listCount l := rfl
    omega

/-- Witness for C5 as amended on a fresh root scope: registering the counting
mock `9` and immediately calling the returned remove handle restores the
root's callback array; removing an identity that is not registered is a
no-op; and with no registration of the mock anywhere, an `abort()` leaves
the trace free of it. -/
theorem c5_remove_suppresses_witness :
    ((removeCleanup 0 (onAbort 0 (.emit 9) rootWorld).2
        (onAbort 0 (.emit 9) rootWorld).1).ctrl 0).cleanupCallbacks =
      (rootWorld.ctrl 0).cleanupCallbacks ∧
    removeCleanup 0 5 rootWorld = rootWorld ∧
    World.traceCount
      { ctrls := [{ cleanupCallbacks := [], childControllers := [], aborted := true }],
        cells := [], nextId := 1, trace := [] } 9 = 0 := by
  refine ⟨?_, ?_, ?_⟩
  · exact c5_remove_suppresses.1 0 9 rootWorld (idsOk_of_dec _ (by decide)) 0
  · exact c5_remove_suppresses.2.1 0 5 rootWorld (by decide)
  · exact c5_remove_suppresses.2.2 9 rootWorld [(4, 0)]
      { ctrls := [{ cleanupCallbacks := [], childControllers := [], aborted := true }],
        cells := [], nextId := 1, trace := [] }
      ⟨idsOk_of_dec _ (by decide), tame_of_dec _ (by decide)⟩
      (by decide) (by decide)

/-- C6: for every switch wrapper, a successful invocation of the wrapped
function leaves the previous child held in the wrapper's cell aborted (the
abort of the previous child precedes the creation of the fresh one, which the
interpreter sequences exactly as src/src/effect.ts lines 181-187); the full
wrapped call hands the fresh child to the callback and returns the callback's
result unchanged; and on the spec's three-invocation scenario the trace
`[1, 101, 2, 102, 3, 103]` shows each invocation cancelling the previous
child (its counting cleanup fires) before the next child id is handed to the
callback, with the final `abort()` of the context cancelling the last child
and nulling the cell — at most one child of the wrapper is ever live. -/
theorem c6_switch_semantics :
    (∀ (fuel s cell : Nat) (w : World) (d : Nat) (w' : World) (c : Nat),
      HypW w → w.cell cell = some d → d < w.ctrls.length →
      switchInvoke fuel s cell w = .ok (w', c) →
      (w'.ctrl d).aborted = true) ∧
    (∀ {α : Type} (fuel s cell : Nat) (cb : Nat → World → α) (w : World)
      (p : World × Nat), switchInvoke fuel s cell w = .ok p →
      switchCall fuel s cell cb w = .ok (cb p.2 p.1)) ∧
    switchScenario = .ok
      { ctrls := [{ cleanupCallbacks := [], childControllers := [], aborted := true },
                  { cleanupCallbacks := [], childControllers := [], aborted := true },
                  { cleanupCallbacks := [], childControllers := [], aborted := true },
                  { cleanupCallbacks := [], childControllers := [], aborted := true }],
        cells := [none], nextId := 11,
        trace := [1, 101, 2, 102, 3, 103] } := by
  refine ⟨?_, ?_, ?_⟩
  · intro fuel s cell w d w' c hw hcell hd h
    simp only [switchInvoke, hcell] at h
    cases habt : abortCtrl fuel d w with
    | error e =>
      rw [habt] at h
      cases h
    | ok w1 =>
      rw [habt] at h
      have h2 : (match createController s w1 with
          | Except.error e => Except.error e
          | Except.ok (w, c) => Except.ok (w.setCell cell (some c), c)) =
          Except.ok (w', c) := h
      cases hcc : createController s w1 with
      | error e =>
        rw [hcc] at h2
        cases h2
      | ok p =>
        obtain ⟨w2, c2⟩ := p
        rw [hcc] at h2
        cases h2
        obtain ⟨hlive, hp⟩ := createController_ok s w1 _ hcc
        have hd1 : (w1.ctrl d).aborted = true :=
          (abortCtrl_ev fuel d w w1 hw habt).2 hd
        have hev2 : Ev w1 (createChildController s w1).1 :=
          ev_createChildController s w1
        have habd : ((createChildController s w1).1.ctrl d).aborted = true :=
          hev2.abortedMono d hd1
        have hw2 : w2 = (createChildController s w1).1 :=
          congrArg Prod.fst hp
        rw [ctrl_setCell, hw2]
        exact habd
  · intro α fuel s cell cb w p h
    obtain ⟨w1, c1⟩ := p
    simp only [switchCall, h]
  · simp [switchScenario, createSwitchWrapper, switchInvoke, rootWorld, abortCtrl,
      childLoop, cleanupLoop, runWrapped, runAct, World.ctrl, World.setCtrl,
      World.modifyCtrl, World.cell, World.setCell, World.push, eraseFirstId,
      eraseFirstNat, onAbort, removeCleanup, newController, createChildController,
      createController, defaultCtrl, World.empty]

/-- Witness for C6 on `switchMidWorld`: one more invocation of the wrapped
function aborts the previous child `1` and hands the fresh child `2` to the
callback, whose result comes back unchanged. -/
theorem c6_switch_semantics_witness :
    (switchMidWorldAfter.ctrl 1).aborted = true ∧
    switchCall 6 0 0 (fun c _ => c) switchMidWorld = .ok 2 := by
  constructor
  · exact c6_switch_semantics.1 6 0 0 switchMidWorld 1 switchMidWorldAfter 2
      ⟨idsOk_of_dec _ (by decide), tame_of_dec _ (by decide)⟩
      (by decide) (by decide) (by decide)
  · exact c6_switch_semantics.2.1 6 0 0 (fun c _ => c) switchMidWorld
      (switchMidWorldAfter, 2) (by decide)

/-- Refutation for C7: `onAbort` on an already-aborted scope does NOT fail
fast the way `createController` does — it has no aborted guard at all, so the
registration silently succeeds and the aborted scope's callback array grows
by the new wrapped cleanup. -/
theorem c7_onabort_aborted_cex :
    (onAbort 0 (.emit 9) abortedWorld).1.ctrl 0 =
      { cleanupCallbacks := [⟨2, .emit 9⟩], childControllers := [],
        aborted := true } := by
  decide

/-- C7 as amended: `onAbort` on an already-aborted scope cannot raise (it is
a total registration), and §4.1's recommended safety contract holds — the
supplied cleanup is not executed synchronously (the trace is untouched by the
call), and it is never invoked by any later sequence of `abort()` calls on
any controllers, because the aborted scope's callback array is frozen and a
repeated `abort()` returns before its cleanup loop. -/
theorem c7_onabort_aborted_safe :
    ∀ (c l : Nat) (w : World), HypW w → (w.ctrl c).aborted = true →
      c < w.ctrls.length → w.totalCount l = 0 →
      (onAbort c (.emit l) w).1.trace = w.trace ∧
      (∀ (seq : List (Nat × Nat)) (w' : World),
        abortSeq seq (onAbort c (.emit l) w).1 = .ok w' →
        w'.traceCount l = 0) := by
  intro c l w hw hab hc htot
  refine ⟨onAbort_trace c _ w, ?_⟩
  intro seq w' hrun
  have hw1 : HypW (onAbort c (.emit l) w).1 :=
    ⟨idsOk_onAbort c _ w hw.1, tame_onAbort c _ w rfl hw.2⟩
  have hEv : Ev (onAbort c (.emit l) w).1 w' := abortSeq_ev seq _ w' hw1 hrun
  have ht1 : (onAbort c (.emit l) w).1.totalCount l = 1 := by
    rw [totalCount_onAbort c l _ w hc, htot]
    simp
  have hcons := hEv.conserve l
  have hab1 : ((onAbort c (.emit l) w).1.ctrl c).aborted = true := by
    rw [onAbort_ctrl_self c _ w hc]
    exact hab
  have hfroz := hEv.frozen c hab1
  have hce1 : countEmit l ((onAbort c (.emit l) w).1.ctrl c).cleanupCallbacks =
      countEmit l (w.ctrl c).cleanupCallbacks + 1 := by
    rw [onAbort_ctrl_self c _ w hc]
    show countEmit l ((w.ctrl c).cleanupCallbacks ++ [⟨w.nextId, .emit l⟩]) = _
    rw [countEmit_append, countEmit_singleton]
    simp
  have hle : countEmit l (w'.ctrl c).cleanupCallbacks ≤ w'.listCount l :=
    countEmit_le_listCount w' c l
  rw [hfroz, hce1] at hle
  have hsplit : w'.totalCount l = w'.traceCount l + w'.listCount l := rfl
  omega

/-- Witness for C7 as amended, on a single aborted controller: registering
the counting mock `9` touches no trace, and a subsequent `abort()` never
runs it — the trace count of `9` stays zero. -/
theorem c7_onabort_aborted_safe_witness :
    (onAbort 0 (.emit 9) abortedWorld).1.trace = abortedWorld.trace ∧
    World.traceCount
      { ctrls := [{ cleanupCallbacks := [⟨2, .emit 9⟩], childControllers := [],
                    aborted := true }],
        cells := [], nextId := 3, trace := [] } 9 = 0 := by
  have h := c7_onabort_aborted_safe 0 9 abortedWorld
    ⟨idsOk_of_dec _ (by decide), tame_of_dec _ (by decide)⟩
    (by decide) (by decide) (by decide)
  refine ⟨h.1, h.2 [(5, 0)]
    { ctrls := [{ cleanupCallbacks := [⟨2, .emit 9⟩], childControllers := [],
                  aborted := true }],
      cells := [], nextId := 3, trace := [] } (by decide)⟩

/-- Refutation for C8's unreachability precondition: in `crossRegWorld` no
registered cleanup calls `onAbort` back on its own scope (the decidable
no-self-registration condition holds), yet aborting scope `0` still reaches
`throw new Error('cleanup callbacks not empty')` — the cleanup of scope `1`,
aborted from inside `0`'s sweep, registers onto `0` mid-sweep, so the
no-self-registration precondition is not enough for the error branch to be
unreachable. -/
theorem c8_no_self_reg_insufficient :
    (crossRegWorld 9).NoSelfReg ∧
    abortCtrl 8 0 (crossRegWorld 9) = .error .cleanupNotEmpty := by
  exact ⟨noSelfReg_of_dec _ (by decide), by decide⟩

/-- C8 as amended: the non-empty-list check after the sweep raises the error
loudly — a self-registering cleanup makes `abort()` end in the
`cleanup callbacks not empty` error, never a silent success — and the branch
is unreachable under the stronger precondition that no registered cleanup
calls `onAbort` on ANY controller during the sweep (tame cleanups, with
well-formed closure identities): every executed cleanup then removes itself
and the assertion cannot fire. -/
theorem c8_assert_not_silent :
    (∀ (fuel c : Nat) (w : World), HypW w →
      abortCtrl fuel c w ≠ .error .cleanupNotEmpty) ∧
    abortCtrl 8 0 (selfRegWorld 9) = .error .cleanupNotEmpty := by
  constructor
  · intro fuel c w hw
    exact abortCtrl_no_cne fuel c w hw
  · decide

/-- Witness for C8 as amended on a fresh root scope with its tame debug
cleanup: no fuel makes `abort()` raise the empty-list assertion. -/
theorem c8_assert_not_silent_witness :
    abortCtrl 5 0 rootWorld ≠ .error .cleanupNotEmpty :=
  c8_assert_not_silent.1 5 0 rootWorld
    ⟨idsOk_of_dec _ (by decide), tame_of_dec _ (by decide)⟩

/-- Witness for C1: the spec's counting-mock test.  One counting cleanup `5`
registered on a fresh root scope, `abort()` called twice: the mock ran
exactly once (the trace holds one `5`), and it is no longer registered. -/
theorem c1_cleanup_exactly_once_witness :
    c1FinalWorld.traceCount 5 ≤ 1 ∧
    ((c1FinalWorld.ctrl 0).aborted = true →
      c1FinalWorld.traceCount 5 = 1 ∧
      countEmit 5 (c1FinalWorld.ctrl 0).cleanupCallbacks = 0) := by
  refine c1_cleanup_exactly_once (onAbort 0 (.emit 5) rootWorld).1 0 5
    [(5, 0), (5, 0)] c1FinalWorld
    (idsOk_of_dec _ (by decide)) (tame_of_dec _ (by decide))
    (by decide) (by decide) (by decide) ?_ (by decide)
  intro j hj
  have hlen : (onAbort 0 (.emit 5) rootWorld).1.ctrls.length = 1 := by decide
  have hle : (onAbort 0 (.emit 5) rootWorld).1.ctrls.length ≤ j := by omega
  rw [ctrl_oor _ j hle]
  rfl

end EffectCleanup
